import Mathlib

/-!
# Verification of the `SocketManager` connection registry (`src/websocket/socketManager.js`)

Shallow embedding of the real-time connection registry: the `SocketManager`
class holding the primary connection map (`clients`), the room index
(`rooms`), the user-connection index (`userSockets`), and the ws-server
client set (`wss.clients`), together with its operations
(connection acceptance, inbound message dispatch, join/leave room,
track/untrack product, broadcast/unicast/room-cast/per-user send,
disconnect cleanup, and the heartbeat sweep).

Modelling conventions:
* a live transport handle (`ws` object) is an opaque `Conn := Nat`;
* a JS `Map` is a function `key → Option value` (`mapSet` / `mapDel` mirror
  `Map.set` / `Map.delete`);
* a JS `Set` is an insertion-ordered duplicate-free `List` (`setAdd` /
  `setDel` mirror `Set.add` / `Set.delete`; `forEach` is a fold in order);
* `ws.readyState === ws.OPEN` is an environment parameter `isOpen : Conn → Bool`;
* wall-clock timestamps are an environment parameter `now : Nat` threaded to
  every constructed message; the random display ids from `generateClientId`
  / `generateNotificationId` are likewise caller-supplied `Nat`s;
* JS number arithmetic in the discount computation is modelled exactly over
  `ℚ`, with `Math.round` as `⌊x + 1/2⌋` (JS rounds ties toward +∞);
* a call to `ws.send` that the transport makes throw is modelled in the
  `Except`-valued variants (`sendToClientE`, `broadcastE`,
  `broadcastToRoomE`) by a parameter `sendErr : Conn → Bool`; the plain
  variants are the same code under the assumption that no send throws,
  which is proved as a linking lemma.
-/

/-- A transport-level connection handle (the `ws` object used as its own key). -/
abbrev Conn := Nat

/-- JS `Set.add`: append if absent (insertion order preserved, no duplicates). -/
def setAdd {α : Type} [DecidableEq α] (l : List α) (a : α) : List α :=
  if a ∈ l then l else l ++ [a]

/-- JS `Set.delete`: remove the element. -/
def setDel {α : Type} [DecidableEq α] (l : List α) (a : α) : List α :=
  l.filter (fun x => x ≠ a)

/-- JS `Map.set`. -/
def mapSet {α β : Type} [DecidableEq α] (f : α → Option β) (k : α) (v : β) : α → Option β :=
  fun x => if x = k then some v else f x

/-- JS `Map.delete`. -/
def mapDel {α β : Type} [DecidableEq α] (f : α → Option β) (k : α) : α → Option β :=
  fun x => if x = k then none else f x

/-- The per-connection record stored in `this.clients`
(`{ id, userId, connectedAt, lastActivity, rooms, trackedProducts }`).
`userId` is `none` for an anonymous connection. -/
structure ClientInfo where
  id : Nat
  userId : Option Nat
  connectedAt : Nat
  lastActivity : Nat
  rooms : List String
  trackedProducts : List Nat
deriving DecidableEq, Repr

/-- JS truthiness of `clientInfo.userId` (`if (userId)`): `undefined` and the
number `0` are falsy. -/
def truthyId : Option Nat → Bool
  | none => false
  | some u => u ≠ 0

/-- The mutable state of a `SocketManager`: the three indexes plus the
ws-server's own client set (`this.wss.clients`), which `broadcast` iterates. -/
structure SMState where
  clients : Conn → Option ClientInfo
  rooms : String → Option (List Conn)
  userSockets : Nat → Option (List Conn)
  wssClients : List Conn

/-- The state of a freshly constructed `SocketManager` (all indexes empty). -/
def SMState.init : SMState :=
  { clients := fun _ => none
    rooms := fun _ => none
    userSockets := fun _ => none
    wssClients := [] }

/-- Outbound wire messages (the discriminated `type` envelope; payload fields
kept, wall-clock timestamp as a `Nat`). -/
inductive Msg where
  | welcome (clientId : Nat) (ts : Nat)
  | roomJoined (room : String) (userCount : Nat) (ts : Nat)
  | roomLeft (room : String) (ts : Nat)
  | userJoined (userId : Option Nat) (userCount : Nat) (ts : Nat)
  | userLeft (userId : Option Nat) (userCount : Nat) (ts : Nat)
  | productTracked (productId : Nat) (ts : Nat)
  | productUntracked (productId : Nat) (ts : Nat)
  | userTyping (userId : Option Nat) (ts : Nat)
  | pong (ts : Nat)
  | productUpdate (productId : Nat) (payload : Nat) (ts : Nat)
  | stockUpdate (productId newStock oldStock : Nat) (ts : Nat)
  | priceUpdate (productId : Nat) (newPrice oldPrice : ℚ) (discount : ℤ) (ts : Nat)
  | newProduct (product : Nat) (ts : Nat)
  | notifyUser (payload : Nat) (noteId : Nat) (ts : Nat)
  | analyticsUpdate (payload : Nat) (ts : Nat)
  | userActivity (userId : Nat) (activity : Nat) (ts : Nat)
deriving DecidableEq, Repr

/-- An ordered trace of `(target connection, message)` writes performed by an
operation. -/
abbrev Sends := List (Conn × Msg)

/-- `sendToClient(ws, message)`: write iff `ws.readyState === ws.OPEN`. -/
def sendToClient (isOpen : Conn → Bool) (ws : Conn) (m : Msg) : Sends :=
  if isOpen ws then [(ws, m)] else []

/-- `broadcastToRoom(roomName, message, excludeWs)`: iterate the room's member
set, writing to every open member other than `excludeWs`; a missing room is a
silent no-op (and the operation never touches state — it only writes). -/
def broadcastToRoom (s : SMState) (isOpen : Conn → Bool) (roomName : String)
    (m : Msg) (excludeWs : Option Conn) : Sends :=
  match s.rooms roomName with
  | none => []
  | some members =>
      (members.filter (fun c => isOpen c && some c ≠ excludeWs)).map (fun c => (c, m))

/-- `broadcast(message, filter)`: iterate `this.wss.clients`, writing to every
open connection passing the (optional) predicate. -/
def broadcast (s : SMState) (isOpen : Conn → Bool) (m : Msg)
    (filter : Option (Conn → Bool)) : Sends :=
  (s.wssClients.filter (fun c => isOpen c &&
    match filter with
    | none => true
    | some f => f c)).map (fun c => (c, m))

/-- The `connection` handler: store a fresh `ClientInfo`, index the socket
under its user id when the id is truthy, and send the `WELCOME` message.
(`cid` is the generated display client id, `now` the wall clock; the ws
library has already added `ws` to `wss.clients`.) -/
def handleConnection (s : SMState) (isOpen : Conn → Bool) (ws : Conn)
    (userId : Option Nat) (cid now : Nat) : SMState × Sends :=
  let info : ClientInfo :=
    { id := cid, userId := userId, connectedAt := now, lastActivity := now
      rooms := [], trackedProducts := [] }
  let s1 : SMState :=
    { s with clients := mapSet s.clients ws info
             wssClients := setAdd s.wssClients ws }
  let s2 : SMState :=
    if truthyId userId then
      match userId with
      | some u =>
          { s1 with userSockets :=
              mapSet s1.userSockets u (setAdd ((s1.userSockets u).getD []) ws) }
      | none => s1
    else s1
  (s2, sendToClient isOpen ws (.welcome cid now))

/-- `joinRoom(ws, roomName)`: create the room if absent, add `ws` to its
member set and the room to the client's room set, confirm with `ROOM_JOINED`
(carrying the updated member count), then broadcast `USER_JOINED` to the other
members. Unregistered `ws` is a no-op. -/
def joinRoom (s : SMState) (isOpen : Conn → Bool) (ws : Conn) (roomName : String)
    (now : Nat) : SMState × Sends :=
  match s.clients ws with
  | none => (s, [])
  | some info =>
      let members := (s.rooms roomName).getD []
      let members' := setAdd members ws
      let s' : SMState :=
        { s with rooms := mapSet s.rooms roomName members'
                 clients := mapSet s.clients ws { info with rooms := setAdd info.rooms roomName } }
      (s', sendToClient isOpen ws (.roomJoined roomName members'.length now) ++
           broadcastToRoom s' isOpen roomName
             (.userJoined info.userId members'.length now) (some ws))

/-- `leaveRoom(ws, roomName)`: remove `ws` from the member set and the room
from the client's room set, delete the room if it became empty, and confirm
with `ROOM_LEFT`. Early return if `ws` is unregistered or the room is absent.
No `USER_LEFT` is broadcast on this path. -/
def leaveRoom (s : SMState) (isOpen : Conn → Bool) (ws : Conn) (roomName : String)
    (now : Nat) : SMState × Sends :=
  match s.clients ws, s.rooms roomName with
  | some info, some members =>
      let members' := setDel members ws
      let rooms' :=
        if members'.length = 0 then mapDel s.rooms roomName
        else mapSet s.rooms roomName members'
      let s' : SMState :=
        { s with rooms := rooms'
                 clients := mapSet s.clients ws { info with rooms := setDel info.rooms roomName } }
      (s', sendToClient isOpen ws (.roomLeft roomName now))
  | _, _ => (s, [])

/-- `trackProduct(ws, productId)`: add the id to the client's tracking set and
confirm. -/
def trackProduct (s : SMState) (isOpen : Conn → Bool) (ws : Conn) (productId : Nat)
    (now : Nat) : SMState × Sends :=
  match s.clients ws with
  | none => (s, [])
  | some info =>
      ({ s with clients := mapSet s.clients ws { info with trackedProducts := setAdd info.trackedProducts productId } },
       sendToClient isOpen ws (.productTracked productId now))

/-- `untrackProduct(ws, productId)`: remove the id from the client's tracking
set and confirm. -/
def untrackProduct (s : SMState) (isOpen : Conn → Bool) (ws : Conn) (productId : Nat)
    (now : Nat) : SMState × Sends :=
  match s.clients ws with
  | none => (s, [])
  | some info =>
      ({ s with clients := mapSet s.clients ws { info with trackedProducts := setDel info.trackedProducts productId } },
       sendToClient isOpen ws (.productUntracked productId now))

/-- A successfully parsed inbound frame (`data.type` discriminates;
`unknown` stands for any unrecognized `type`, which is logged and ignored). -/
inductive InMsg where
  | joinRoom (room : String)
  | leaveRoom (room : String)
  | trackProduct (productId : Nat)
  | untrackProduct (productId : Nat)
  | userTyping (room : String)
  | heartbeat
  | unknown
deriving DecidableEq, Repr

/-- `handleMessage(ws, message)` after a successful JSON parse: drop the frame
if `ws` is unregistered, refresh `lastActivity`, then dispatch on `type`. -/
def handleMessage (s : SMState) (isOpen : Conn → Bool) (ws : Conn) (msg : InMsg)
    (now : Nat) : SMState × Sends :=
  match s.clients ws with
  | none => (s, [])
  | some info =>
      let s1 : SMState :=
        { s with clients := mapSet s.clients ws { info with lastActivity := now } }
      match msg with
      | .joinRoom room => joinRoom s1 isOpen ws room now
      | .leaveRoom room => leaveRoom s1 isOpen ws room now
      | .trackProduct pid => trackProduct s1 isOpen ws pid now
      | .untrackProduct pid => untrackProduct s1 isOpen ws pid now
      | .userTyping room =>
          (s1, broadcastToRoom s1 isOpen room (.userTyping info.userId now) (some ws))
      | .heartbeat => (s1, sendToClient isOpen ws (.pong now))
      | .unknown => (s1, [])

/-- `handleMessage` including the JSON parse: a frame that fails to parse is
caught and ignored (no state change, no reply). -/
def handleRawMessage (s : SMState) (isOpen : Conn → Bool) (ws : Conn)
    (parsed : Option InMsg) (now : Nat) : SMState × Sends :=
  match parsed with
  | none => (s, [])
  | some m => handleMessage s isOpen ws m now

/-- `sendNotification(userId, notification)`: unicast the `NOTIFICATION`
envelope to every socket indexed under `userId`; a user with no entry is a
silent no-op. (`noteId` is the generated notification id.) -/
def sendNotification (s : SMState) (isOpen : Conn → Bool) (userId : Nat)
    (payload noteId now : Nat) : Sends :=
  match s.userSockets userId with
  | none => []
  | some conns =>
      conns.foldl (fun acc ws =>
        acc ++ sendToClient isOpen ws (.notifyUser payload noteId now)) []

/-- `Math.round` on an exact rational: ties round toward `+∞`. -/
def jsRound (x : ℚ) : ℤ := ⌊x + 1 / 2⌋

/-- The `discount` field of a `PRICE_UPDATE` message:
`oldPrice > newPrice ? Math.round(((oldPrice - newPrice) / oldPrice) * 100) : 0`. -/
def priceDiscount (newPrice oldPrice : ℚ) : ℤ :=
  if oldPrice > newPrice then jsRound ((oldPrice - newPrice) / oldPrice * 100) else 0

/-- `broadcastPriceUpdate(productId, newPrice, oldPrice)`: unfiltered broadcast
of a `PRICE_UPDATE` message carrying the computed discount. -/
def broadcastPriceUpdate (s : SMState) (isOpen : Conn → Bool) (productId : Nat)
    (newPrice oldPrice : ℚ) (now : Nat) : Sends :=
  broadcast s isOpen
    (.priceUpdate productId newPrice oldPrice (priceDiscount newPrice oldPrice) now) none

/-- One iteration of the `clientInfo.rooms.forEach` loop in `removeClient`:
remove `ws` from the room (if still present in the index), delete the room if
it emptied, otherwise broadcast `USER_LEFT` (with the updated count) to the
remaining members. -/
def removeRoomStep (isOpen : Conn → Bool) (ws : Conn) (uid : Option Nat) (now : Nat)
    (acc : SMState × Sends) (room : String) : SMState × Sends :=
  match acc.1.rooms room with
  | none => acc
  | some members =>
      let members' := setDel members ws
      if members'.length = 0 then
        ({ acc.1 with rooms := mapDel acc.1.rooms room }, acc.2)
      else
        let st : SMState := { acc.1 with rooms := mapSet acc.1.rooms room members' }
        (st, acc.2 ++ broadcastToRoom st isOpen room (.userLeft uid members'.length now) none)

/-- The user-index phase of `removeClient`: `if (clientInfo.userId &&
this.userSockets.has(clientInfo.userId))` delete `ws` from that user's socket
set, and drop the user's entry entirely if the set emptied. -/
def removeUserSocket (s1 : SMState) (ws : Conn) (uid : Option Nat) : SMState :=
  if truthyId uid then
    match uid with
    | some u =>
        (match s1.userSockets u with
         | some conns =>
             if (setDel conns ws).length = 0 then
               { s1 with userSockets := mapDel s1.userSockets u }
             else
               { s1 with userSockets := mapSet s1.userSockets u (setDel conns ws) }
         | none => s1)
    | none => s1
  else s1

/-- `removeClient(ws)`: evict `ws` everywhere — from each of its rooms
(deleting emptied rooms, notifying survivors), from its user's socket set
(deleting the user's entry if emptied; skipped for falsy user ids), and from
the primary map. A `ws` with no `clients` entry is a complete no-op. -/
def removeClient (s : SMState) (isOpen : Conn → Bool) (ws : Conn) (now : Nat) :
    SMState × Sends :=
  match s.clients ws with
  | none => (s, [])
  | some info =>
      let r := info.rooms.foldl (removeRoomStep isOpen ws info.userId now) (s, [])
      let s2 := removeUserSocket r.1 ws info.userId
      ({ s2 with clients := mapDel s2.clients ws }, r.2)

/-!
## Fallible-transport variants of the send primitives

`ws.send` is an external call; if the transport makes it throw, nothing in
`sendToClient` / `broadcast` / `broadcastToRoom` catches the exception (there
is no `try` in any of them), so it propagates out of the `forEach` — aborting
the iteration — and out of the primitive to its caller. `sendErr c = true`
means "`c.send(...)` throws when called". `Except.error ()` is an uncaught
exception escaping the primitive.
-/

/-- `sendToClient` with a fallible transport: the open-state guard is checked
first; a closed target is a silent skip, an open target whose `send` throws
propagates the exception. -/
def sendToClientE (isOpen sendErr : Conn → Bool) (ws : Conn) (m : Msg) :
    Except Unit Sends :=
  if isOpen ws then
    if sendErr ws then .error () else .ok [(ws, m)]
  else .ok []

/-- The `forEach` body of `broadcast` under a fallible transport: iterate the
targets in order, skipping non-open or filtered-out connections, appending a
write for each delivered one — and aborting the whole iteration with the
uncaught exception the moment a `send` throws. -/
def sendLoopB (isOpen sendErr : Conn → Bool) (filter : Option (Conn → Bool))
    (m : Msg) : List Conn → Sends → Except Unit Sends
  | [], acc => .ok acc
  | c :: t, acc =>
      if isOpen c then
        if (match filter with
            | none => true
            | some f => f c) then
          if sendErr c then .error ()
          else sendLoopB isOpen sendErr filter m t (acc ++ [(c, m)])
        else sendLoopB isOpen sendErr filter m t acc
      else sendLoopB isOpen sendErr filter m t acc

/-- `broadcast` with a fallible transport: `forEach` stops at the first
uncaught exception, so the remaining targets are never reached. -/
def broadcastE (s : SMState) (isOpen sendErr : Conn → Bool) (m : Msg)
    (filter : Option (Conn → Bool)) : Except Unit Sends :=
  sendLoopB isOpen sendErr filter m s.wssClients []

/-- The `forEach` body of `broadcastToRoom` under a fallible transport. -/
def sendLoopR (isOpen sendErr : Conn → Bool) (excludeWs : Option Conn)
    (m : Msg) : List Conn → Sends → Except Unit Sends
  | [], acc => .ok acc
  | c :: t, acc =>
      if isOpen c && some c ≠ excludeWs then
        if sendErr c then .error ()
        else sendLoopR isOpen sendErr excludeWs m t (acc ++ [(c, m)])
      else sendLoopR isOpen sendErr excludeWs m t acc

/-- `broadcastToRoom` with a fallible transport. -/
def broadcastToRoomE (s : SMState) (isOpen sendErr : Conn → Bool)
    (roomName : String) (m : Msg) (excludeWs : Option Conn) : Except Unit Sends :=
  match s.rooms roomName with
  | none => .ok []
  | some members => sendLoopR isOpen sendErr excludeWs m members []

/-!
## Heartbeat sweep model

Per-connection state of the transport-level liveness protocol
(`ws.isAlive`, plus whether `ws.terminate()` has been called on it).
The sweep body runs every `interval` ms (30000 in the source, expressed
here in whole seconds): a terminated socket is no longer in `wss.clients`
(modelled by the `terminated` guard); otherwise a socket whose flag is
`false` is terminated, and a live one has its flag reset to `false` and is
pinged. The `pong` listener sets the flag back to `true`. -/
structure HbConn where
  isAlive : Bool
  terminated : Bool
deriving DecidableEq, Repr

/-- One liveness sweep applied to one connection; the `Bool` records whether a
transport-level ping was sent to it in this sweep. -/
def sweepConn (c : HbConn) : HbConn × Bool :=
  if c.terminated then (c, false)
  else if !c.isAlive then ({ c with terminated := true }, false)
  else ({ c with isAlive := false }, true)

/-- The `pong` listener: mark the connection alive. -/
def pongConn (c : HbConn) : HbConn := { c with isAlive := true }

/-- The connection state after `n` consecutive sweeps with no intervening
pong. -/
def sweepN : Nat → HbConn → HbConn
  | 0, c => c
  | n + 1, c => sweepN n (sweepConn c).1

/-- With sweeps firing at times `interval, 2*interval, 3*interval, …` and a
connection's flag last set `true` at time `p` (its last pong, or its
registration), a connection that never pongs again is terminated by the
second sweep after `p`, i.e. at this absolute time. -/
def hbTerminationTime (interval p : Nat) : Nat := (p / interval + 2) * interval

/-!
## Registry invariants

`RegInvariant` is exactly the cross-index invariant the specification states:
nonempty rooms only, and the user-connection index only references
connections present in the primary map. `FullInv` strengthens it with the
bookkeeping facts the operations actually maintain (membership recorded in
both directions, user ids matching the index key and truthy, duplicate-free
sets); `FullInv` holds initially, is preserved by every operation, and
implies `RegInvariant`. -/

/-- The specification's cross-index invariant: every indexed room has at least
one member, and every socket in a user's set is a registered connection. -/
def RegInvariant (s : SMState) : Prop :=
  (∀ r members, s.rooms r = some members → members ≠ []) ∧
  (∀ u conns c, s.userSockets u = some conns → c ∈ conns →
    ∃ info, s.clients c = some info)

/-- Every room member is a registered connection that records the room in its
own room set. -/
def roomsConsistent (s : SMState) : Prop :=
  ∀ r members c, s.rooms r = some members → c ∈ members →
    ∃ info, s.clients c = some info ∧ r ∈ info.rooms

/-- Every socket in a user's set belongs to a registered connection whose
(truthy) user id is that user. -/
def userIdxConsistent (s : SMState) : Prop :=
  ∀ u conns c, s.userSockets u = some conns → c ∈ conns →
    ∃ info, s.clients c = some info ∧ info.userId = some u ∧ u ≠ 0

/-- All the JS `Set`s in the state are duplicate-free lists. -/
def nodupState (s : SMState) : Prop :=
  (∀ r members, s.rooms r = some members → members.Nodup) ∧
  (∀ u conns, s.userSockets u = some conns → conns.Nodup) ∧
  (∀ c info, s.clients c = some info → info.rooms.Nodup) ∧
  s.wssClients.Nodup

/-- The full inductive invariant maintained by the registry. -/
def FullInv (s : SMState) : Prop :=
  (∀ r members, s.rooms r = some members → members ≠ []) ∧
  roomsConsistent s ∧ userIdxConsistent s ∧ nodupState s

/-!
## Helper lemmas about the JS `Set` / `Map` model
-/

theorem mem_setAdd {α : Type} [DecidableEq α] {l : List α} {a b : α} :
    b ∈ setAdd l a ↔ b ∈ l ∨ b = a := by
  unfold setAdd
  by_cases h : a ∈ l
  · simp only [if_pos h]
    constructor
    · exact Or.inl
    · rintro (hb | rfl)
      · exact hb
      · exact h
  · simp [if_neg h]

theorem setAdd_ne_nil {α : Type} [DecidableEq α] (l : List α) (a : α) :
    setAdd l a ≠ [] := by
  intro h
  have : a ∈ setAdd l a := mem_setAdd.2 (Or.inr rfl)
  rw [h] at this
  exact absurd this (List.not_mem_nil a)

theorem nodup_setAdd {α : Type} [DecidableEq α] {l : List α} (a : α)
    (h : l.Nodup) : (setAdd l a).Nodup := by
  unfold setAdd
  by_cases ha : a ∈ l
  · simpa [if_pos ha]
  · simpa [if_neg ha, List.nodup_append, h]

theorem setAdd_of_mem {α : Type} [DecidableEq α] {l : List α} {a : α}
    (h : a ∈ l) : setAdd l a = l := by
  unfold setAdd; simp [if_pos h]

theorem mem_setDel {α : Type} [DecidableEq α] {l : List α} {a b : α} :
    b ∈ setDel l a ↔ b ∈ l ∧ b ≠ a := by
  unfold setDel
  simp [List.mem_filter]

theorem not_mem_setDel {α : Type} [DecidableEq α] (l : List α) (a : α) :
    a ∉ setDel l a := by
  intro h
  exact absurd rfl (mem_setDel.1 h).2

theorem nodup_setDel {α : Type} [DecidableEq α] {l : List α} (a : α)
    (h : l.Nodup) : (setDel l a).Nodup :=
  List.Nodup.filter _ h

theorem mapSet_same {α β : Type} [DecidableEq α] (f : α → Option β) (k : α) (v : β) :
    mapSet f k v k = some v := by
  unfold mapSet; simp

theorem mapSet_ne {α β : Type} [DecidableEq α] (f : α → Option β) {k x : α} (v : β)
    (h : x ≠ k) : mapSet f k v x = f x := by
  unfold mapSet; simp [if_neg h]

theorem mapSet_of_eq {α β : Type} [DecidableEq α] {f : α → Option β} {k : α} {v : β}
    (h : f k = some v) : mapSet f k v = f := by
  funext x
  unfold mapSet
  by_cases hx : x = k
  · subst hx; simp [h]
  · simp [if_neg hx]

theorem mapDel_same {α β : Type} [DecidableEq α] (f : α → Option β) (k : α) :
    mapDel f k k = none := by
  unfold mapDel; simp

theorem mapDel_ne {α β : Type} [DecidableEq α] (f : α → Option β) {k x : α}
    (h : x ≠ k) : mapDel f k x = f x := by
  unfold mapDel; simp [if_neg h]

/-!
## Characterizations of the operations (unfolding the `match`es)
-/

theorem joinRoom_none {s : SMState} {isOpen : Conn → Bool} {ws : Conn}
    {roomName : String} {now : Nat} (h : s.clients ws = none) :
    joinRoom s isOpen ws roomName now = (s, []) := by
  unfold joinRoom; rw [h]

theorem joinRoom_some {s : SMState} {isOpen : Conn → Bool} {ws : Conn}
    {roomName : String} {now : Nat} {info : ClientInfo}
    (h : s.clients ws = some info) :
    (joinRoom s isOpen ws roomName now).1 =
      { s with rooms := mapSet s.rooms roomName (setAdd ((s.rooms roomName).getD []) ws)
               clients := mapSet s.clients ws { info with rooms := setAdd info.rooms roomName } } := by
  unfold joinRoom; rw [h]

theorem leaveRoom_noClient {s : SMState} {isOpen : Conn → Bool} {ws : Conn}
    {roomName : String} {now : Nat} (h : s.clients ws = none) :
    leaveRoom s isOpen ws roomName now = (s, []) := by
  unfold leaveRoom; rw [h]

theorem leaveRoom_noRoom {s : SMState} {isOpen : Conn → Bool} {ws : Conn}
    {roomName : String} {now : Nat} (h : s.rooms roomName = none) :
    leaveRoom s isOpen ws roomName now = (s, []) := by
  unfold leaveRoom; rw [h]
  cases s.clients ws <;> rfl

theorem leaveRoom_some {s : SMState} {isOpen : Conn → Bool} {ws : Conn}
    {roomName : String} {now : Nat} {info : ClientInfo} {members : List Conn}
    (hc : s.clients ws = some info) (hr : s.rooms roomName = some members) :
    leaveRoom s isOpen ws roomName now =
      ({ s with
          rooms := (if (setDel members ws).length = 0 then mapDel s.rooms roomName
                    else mapSet s.rooms roomName (setDel members ws))
          clients := mapSet s.clients ws { info with rooms := setDel info.rooms roomName } },
       sendToClient isOpen ws (.roomLeft roomName now)) := by
  unfold leaveRoom; rw [hc, hr]

theorem trackProduct_some {s : SMState} {isOpen : Conn → Bool} {ws : Conn}
    {productId now : Nat} {info : ClientInfo} (h : s.clients ws = some info) :
    trackProduct s isOpen ws productId now =
      ({ s with clients := mapSet s.clients ws { info with trackedProducts := setAdd info.trackedProducts productId } },
       sendToClient isOpen ws (.productTracked productId now)) := by
  unfold trackProduct; rw [h]

theorem untrackProduct_some {s : SMState} {isOpen : Conn → Bool} {ws : Conn}
    {productId now : Nat} {info : ClientInfo} (h : s.clients ws = some info) :
    untrackProduct s isOpen ws productId now =
      ({ s with clients := mapSet s.clients ws { info with trackedProducts := setDel info.trackedProducts productId } },
       sendToClient isOpen ws (.productUntracked productId now)) := by
  unfold untrackProduct; rw [h]

theorem handleMessage_some {s : SMState} {isOpen : Conn → Bool} {ws : Conn}
    {msg : InMsg} {now : Nat} {info : ClientInfo} (h : s.clients ws = some info) :
    handleMessage s isOpen ws msg now =
      (let s1 : SMState :=
        { s with clients := mapSet s.clients ws { info with lastActivity := now } }
      match msg with
      | .joinRoom room => joinRoom s1 isOpen ws room now
      | .leaveRoom room => leaveRoom s1 isOpen ws room now
      | .trackProduct pid => trackProduct s1 isOpen ws pid now
      | .untrackProduct pid => untrackProduct s1 isOpen ws pid now
      | .userTyping room =>
          (s1, broadcastToRoom s1 isOpen room (.userTyping info.userId now) (some ws))
      | .heartbeat => (s1, sendToClient isOpen ws (.pong now))
      | .unknown => (s1, [])) := by
  unfold handleMessage; rw [h]

theorem removeClient_none {s : SMState} {isOpen : Conn → Bool} {ws : Conn}
    {now : Nat} (h : s.clients ws = none) :
    removeClient s isOpen ws now = (s, []) := by
  unfold removeClient; rw [h]

/-!
## Preservation of the full invariant
-/

theorem FullInv_init : FullInv SMState.init := by
  refine ⟨?_, ?_, ?_, ?_, ?_, ?_, ?_⟩ <;>
    simp [SMState.init, roomsConsistent, userIdxConsistent, nodupState]

theorem RegInvariant_of_FullInv {s : SMState} (h : FullInv s) : RegInvariant s := by
  obtain ⟨h1, _, h2, _⟩ := h
  refine ⟨h1, ?_⟩
  intro u conns c hu hc
  obtain ⟨info, hi, -, -⟩ := h2 u conns c hu hc
  exact ⟨info, hi⟩

/-- Replacing the stored record of a registered connection with one having the
same room set and user id preserves the invariant (covers the `lastActivity`
refresh and the track/untrack operations). -/
theorem FullInv_updateClient {s : SMState} {ws : Conn} {info info' : ClientInfo}
    (h : s.clients ws = some info) (hro : info'.rooms = info.rooms)
    (hu : info'.userId = info.userId) (hinv : FullInv s) :
    FullInv { s with clients := mapSet s.clients ws info' } := by
  obtain ⟨h1, h3, h2, hn1, hn2, hn3, hn4⟩ := hinv
  refine ⟨h1, ?_, ?_, hn1, hn2, ?_, hn4⟩
  · intro r members c hr hc
    obtain ⟨i, hi, hri⟩ := h3 r members c hr hc
    by_cases hcw : c = ws
    · have hii : info = i := by
        rw [hcw, h] at hi
        exact Option.some.inj hi
      refine ⟨info', ?_, ?_⟩
      · show mapSet s.clients ws info' c = some info'
        rw [hcw]
        exact mapSet_same s.clients ws info'
      · rw [hro, hii]
        exact hri
    · exact ⟨i, (mapSet_ne s.clients info' hcw).trans hi, hri⟩
  · intro u conns c huc hc
    obtain ⟨i, hi, hui, hu0⟩ := h2 u conns c huc hc
    by_cases hcw : c = ws
    · have hii : info = i := by
        rw [hcw, h] at hi
        exact Option.some.inj hi
      refine ⟨info', ?_, ?_, hu0⟩
      · show mapSet s.clients ws info' c = some info'
        rw [hcw]
        exact mapSet_same s.clients ws info'
      · rw [hu, hii]
        exact hui
    · exact ⟨i, (mapSet_ne s.clients info' hcw).trans hi, hui, hu0⟩
  · intro c i hi
    have hi' : mapSet s.clients ws info' c = some i := hi
    by_cases hcw : c = ws
    · rw [hcw, mapSet_same s.clients ws info'] at hi'
      have hii : info' = i := Option.some.inj hi'
      rw [← hii, hro]
      exact hn3 ws info h
    · rw [mapSet_ne s.clients info' hcw] at hi'
      exact hn3 c i hi'

theorem FullInv_trackProduct {s : SMState} {isOpen : Conn → Bool} {ws : Conn}
    {productId now : Nat} (hinv : FullInv s) :
    FullInv (trackProduct s isOpen ws productId now).1 := by
  cases h : s.clients ws with
  | none => unfold trackProduct; rw [h]; exact hinv
  | some info =>
    rw [trackProduct_some h]
    exact FullInv_updateClient h rfl rfl hinv

theorem FullInv_untrackProduct {s : SMState} {isOpen : Conn → Bool} {ws : Conn}
    {productId now : Nat} (hinv : FullInv s) :
    FullInv (untrackProduct s isOpen ws productId now).1 := by
  cases h : s.clients ws with
  | none => unfold untrackProduct; rw [h]; exact hinv
  | some info =>
    rw [untrackProduct_some h]
    exact FullInv_updateClient h rfl rfl hinv

theorem handleConnection_falsy {s : SMState} {isOpen : Conn → Bool} {ws : Conn}
    {userId : Option Nat} {cid now : Nat} (h : truthyId userId = false) :
    (handleConnection s isOpen ws userId cid now).1 =
      { s with clients := mapSet s.clients ws { id := cid, userId := userId, connectedAt := now, lastActivity := now, rooms := [], trackedProducts := [] }
               wssClients := setAdd s.wssClients ws } := by
  unfold handleConnection
  simp only [h, Bool.false_eq_true, if_false]

theorem handleConnection_truthy {s : SMState} {isOpen : Conn → Bool} {ws : Conn}
    {u : Nat} {cid now : Nat} (h : u ≠ 0) :
    (handleConnection s isOpen ws (some u) cid now).1 =
      { s with clients := mapSet s.clients ws { id := cid, userId := some u, connectedAt := now, lastActivity := now, rooms := [], trackedProducts := [] }
               wssClients := setAdd s.wssClients ws
               userSockets := mapSet s.userSockets u (setAdd ((s.userSockets u).getD []) ws) } := by
  unfold handleConnection
  simp [truthyId, h]

theorem FullInv_handleConnection {s : SMState} {isOpen : Conn → Bool} {ws : Conn}
    {userId : Option Nat} {cid now : Nat} (hfresh : s.clients ws = none)
    (hinv : FullInv s) :
    FullInv (handleConnection s isOpen ws userId cid now).1 := by
  obtain ⟨h1, h3, h2, hn1, hn2, hn3, hn4⟩ := hinv
  have hne : ∀ c (i : ClientInfo), s.clients c = some i → c ≠ ws := by
    intro c i hi hcw
    rw [hcw, hfresh] at hi
    exact absurd hi (by simp)
  have hroomsC : ∀ (info0 : ClientInfo), info0.rooms = [] →
      roomsConsistent { s with clients := mapSet s.clients ws info0
                               wssClients := setAdd s.wssClients ws } := by
    intro info0 _ r members c hr hc
    obtain ⟨i, hi, hri⟩ := h3 r members c hr hc
    exact ⟨i, (mapSet_ne s.clients _ (hne c i hi)).trans hi, hri⟩
  cases userId with
  | none =>
    rw [handleConnection_falsy (by rfl)]
    refine ⟨h1, hroomsC { id := cid, userId := none, connectedAt := now, lastActivity := now, rooms := [], trackedProducts := [] } rfl, ?_, hn1, hn2, ?_, nodup_setAdd ws hn4⟩
    · intro u conns c huc hc
      obtain ⟨i, hi, hui, hu0⟩ := h2 u conns c huc hc
      exact ⟨i, (mapSet_ne s.clients _ (hne c i hi)).trans hi, hui, hu0⟩
    · intro c i hi
      have hi' : mapSet s.clients ws _ c = some i := hi
      by_cases hcw : c = ws
      · rw [hcw, mapSet_same] at hi'
        rw [← Option.some.inj hi']
        exact List.nodup_nil
      · rw [mapSet_ne s.clients _ hcw] at hi'
        exact hn3 c i hi'
  | some u =>
    by_cases hu0 : u = 0
    · rw [handleConnection_falsy (by rw [hu0]; rfl)]
      refine ⟨h1, hroomsC { id := cid, userId := some u, connectedAt := now, lastActivity := now, rooms := [], trackedProducts := [] } rfl, ?_, hn1, hn2, ?_, nodup_setAdd ws hn4⟩
      · intro u' conns c huc hc
        obtain ⟨i, hi, hui, hu0'⟩ := h2 u' conns c huc hc
        exact ⟨i, (mapSet_ne s.clients _ (hne c i hi)).trans hi, hui, hu0'⟩
      · intro c i hi
        have hi' : mapSet s.clients ws _ c = some i := hi
        by_cases hcw : c = ws
        · rw [hcw, mapSet_same] at hi'
          rw [← Option.some.inj hi']
          exact List.nodup_nil
        · rw [mapSet_ne s.clients _ hcw] at hi'
          exact hn3 c i hi'
    · rw [handleConnection_truthy hu0]
      have hprevnodup : ((s.userSockets u).getD []).Nodup := by
        cases hP : s.userSockets u with
        | none => simp
        | some p => simpa using hn2 u p hP
      refine ⟨h1, ?_, ?_, hn1, ?_, ?_, nodup_setAdd ws hn4⟩
      · intro r members c hr hc
        obtain ⟨i, hi, hri⟩ := h3 r members c hr hc
        exact ⟨i, (mapSet_ne s.clients _ (hne c i hi)).trans hi, hri⟩
      · intro u' conns c huc hc
        have huc' : mapSet s.userSockets u (setAdd ((s.userSockets u).getD []) ws) u'
            = some conns := huc
        by_cases huu : u' = u
        · rw [huu, mapSet_same] at huc'
          rw [← Option.some.inj huc'] at hc
          rcases mem_setAdd.1 hc with hcP | hcw
          · cases hP : s.userSockets u with
            | none => rw [hP] at hcP; simp at hcP
            | some p =>
              rw [hP] at hcP
              simp only [Option.getD_some] at hcP
              obtain ⟨i, hi, hui, hu0'⟩ := h2 u p c hP hcP
              refine ⟨i, (mapSet_ne s.clients _ (hne c i hi)).trans hi, ?_, ?_⟩
              · rw [huu]; exact hui
              · rw [huu]; exact hu0'
          · refine ⟨{ id := cid, userId := some u, connectedAt := now, lastActivity := now, rooms := [], trackedProducts := [] }, ?_, ?_, ?_⟩
            · show mapSet s.clients ws _ c = some _
              rw [hcw]
              exact mapSet_same _ _ _
            · show (some u : Option Nat) = some u'
              rw [huu]
            · rw [huu]; exact hu0
        · rw [mapSet_ne s.userSockets _ huu] at huc'
          obtain ⟨i, hi, hui, hu0'⟩ := h2 u' conns c huc' hc
          exact ⟨i, (mapSet_ne s.clients _ (hne c i hi)).trans hi, hui, hu0'⟩
      · intro u' conns huc
        have huc' : mapSet s.userSockets u (setAdd ((s.userSockets u).getD []) ws) u'
            = some conns := huc
        by_cases huu : u' = u
        · rw [huu, mapSet_same] at huc'
          rw [← Option.some.inj huc']
          exact nodup_setAdd ws hprevnodup
        · rw [mapSet_ne s.userSockets _ huu] at huc'
          exact hn2 u' conns huc'
      · intro c i hi
        have hi' : mapSet s.clients ws _ c = some i := hi
        by_cases hcw : c = ws
        · rw [hcw, mapSet_same] at hi'
          rw [← Option.some.inj hi']
          exact List.nodup_nil
        · rw [mapSet_ne s.clients _ hcw] at hi'
          exact hn3 c i hi'

theorem FullInv_leaveRoom {s : SMState} {isOpen : Conn → Bool} {ws : Conn}
    {roomName : String} {now : Nat} (hinv : FullInv s) :
    FullInv (leaveRoom s isOpen ws roomName now).1 := by
  cases hc : s.clients ws with
  | none => rw [leaveRoom_noClient hc]; exact hinv
  | some info =>
  cases hr : s.rooms roomName with
  | none => rw [leaveRoom_noRoom hr]; exact hinv
  | some members =>
  rw [leaveRoom_some hc hr]
  obtain ⟨h1, h3, h2, hn1, hn2, hn3, hn4⟩ := hinv
  have hclients : ∀ c i, mapSet s.clients ws { info with rooms := setDel info.rooms roomName } c = some i →
      (c = ws ∧ i = { info with rooms := setDel info.rooms roomName }) ∨ (c ≠ ws ∧ s.clients c = some i) := by
    intro c i hi
    by_cases hcw : c = ws
    · rw [hcw, mapSet_same] at hi
      exact Or.inl ⟨hcw, (Option.some.inj hi).symm⟩
    · rw [mapSet_ne s.clients _ hcw] at hi
      exact Or.inr ⟨hcw, hi⟩
  refine ⟨?_, ?_, ?_, ?_, hn2, ?_, hn4⟩
  · intro r members' hr'
    have hr'' : (if (setDel members ws).length = 0 then mapDel s.rooms roomName
        else mapSet s.rooms roomName (setDel members ws)) r = some members' := hr'
    by_cases hlen : (setDel members ws).length = 0
    · rw [if_pos hlen] at hr''
      by_cases hrr : r = roomName
      · rw [hrr, mapDel_same] at hr''
        exact absurd hr'' (by simp)
      · rw [mapDel_ne s.rooms hrr] at hr''
        exact h1 r members' hr''
    · rw [if_neg hlen] at hr''
      by_cases hrr : r = roomName
      · rw [hrr, mapSet_same] at hr''
        rw [← Option.some.inj hr'']
        intro hnil
        exact hlen (by rw [hnil]; rfl)
      · rw [mapSet_ne s.rooms _ hrr] at hr''
        exact h1 r members' hr''
  · intro r members' c hr' hcm
    have hr'' : (if (setDel members ws).length = 0 then mapDel s.rooms roomName
        else mapSet s.rooms roomName (setDel members ws)) r = some members' := hr'
    have main : s.rooms r = some members' ∨ (r = roomName ∧ members' = setDel members ws) := by
      by_cases hlen : (setDel members ws).length = 0
      · rw [if_pos hlen] at hr''
        by_cases hrr : r = roomName
        · rw [hrr, mapDel_same] at hr''
          exact absurd hr'' (by simp)
        · rw [mapDel_ne s.rooms hrr] at hr''
          exact Or.inl hr''
      · rw [if_neg hlen] at hr''
        by_cases hrr : r = roomName
        · rw [hrr, mapSet_same] at hr''
          exact Or.inr ⟨hrr, (Option.some.inj hr'').symm⟩
        · rw [mapSet_ne s.rooms _ hrr] at hr''
          exact Or.inl hr''
    rcases main with hold | ⟨hrr, hmm⟩
    · -- an untouched room: its members can be anyone but, if `c = ws`,
      -- the room cannot be `roomName` (that entry was rewritten)
      obtain ⟨i, hi, hri⟩ := h3 r members' c hold hcm
      by_cases hcw : c = ws
      · have hii : info = i := by
          rw [hcw, hc] at hi
          exact Option.some.inj hi
        have hrne : r ≠ roomName := by
          intro hrr
          rw [hrr] at hold
          by_cases hlen : (setDel members ws).length = 0
          · rw [if_pos hlen] at hr''
            rw [hrr, mapDel_same] at hr''
            exact absurd hr'' (by simp)
          · rw [if_neg hlen] at hr''
            rw [hrr] at hr''
            rw [mapSet_same] at hr''
            rw [← Option.some.inj hr''] at hcm
            rw [hcw] at hcm
            exact not_mem_setDel members ws hcm
        refine ⟨{ info with rooms := setDel info.rooms roomName }, ?_, ?_⟩
        · show mapSet s.clients ws _ c = some _
          rw [hcw]
          exact mapSet_same _ _ _
        · exact mem_setDel.2 ⟨hii ▸ hri, hrne⟩
      · exact ⟨i, (mapSet_ne s.clients _ hcw).trans hi, hri⟩
    · -- the rewritten room: `ws` is gone from it, others unchanged
      rw [hmm] at hcm
      have hcws : c ∈ members ∧ c ≠ ws := mem_setDel.1 hcm
      obtain ⟨i, hi, hri⟩ := h3 roomName members c hr hcws.1
      refine ⟨i, (mapSet_ne s.clients _ hcws.2).trans hi, ?_⟩
      rw [hrr]
      exact hri
  · intro u conns c huc hcm
    obtain ⟨i, hi, hui, hu0⟩ := h2 u conns c huc hcm
    by_cases hcw : c = ws
    · have hii : info = i := by
        rw [hcw, hc] at hi
        exact Option.some.inj hi
      refine ⟨{ info with rooms := setDel info.rooms roomName }, ?_, ?_, hu0⟩
      · show mapSet s.clients ws _ c = some _
        rw [hcw]
        exact mapSet_same _ _ _
      · show info.userId = some u
        rw [hii]
        exact hui
    · exact ⟨i, (mapSet_ne s.clients _ hcw).trans hi, hui, hu0⟩
  · intro r members' hr'
    have hr'' : (if (setDel members ws).length = 0 then mapDel s.rooms roomName
        else mapSet s.rooms roomName (setDel members ws)) r = some members' := hr'
    by_cases hlen : (setDel members ws).length = 0
    · rw [if_pos hlen] at hr''
      by_cases hrr : r = roomName
      · rw [hrr, mapDel_same] at hr''
        exact absurd hr'' (by simp)
      · rw [mapDel_ne s.rooms hrr] at hr''
        exact hn1 r members' hr''
    · rw [if_neg hlen] at hr''
      by_cases hrr : r = roomName
      · rw [hrr, mapSet_same] at hr''
        rw [← Option.some.inj hr'']
        exact nodup_setDel ws (hn1 roomName members hr)
      · rw [mapSet_ne s.rooms _ hrr] at hr''
        exact hn1 r members' hr''
  · intro c i hi
    rcases hclients c i hi with ⟨-, hii⟩ | ⟨-, hi'⟩
    · rw [hii]
      exact nodup_setDel roomName (hn3 ws info hc)
    · exact hn3 c i hi'

theorem FullInv_joinRoom {s : SMState} {isOpen : Conn → Bool} {ws : Conn}
    {roomName : String} {now : Nat} (hinv : FullInv s) :
    FullInv (joinRoom s isOpen ws roomName now).1 := by
  cases h : s.clients ws with
  | none => rw [joinRoom_none h]; exact hinv
  | some info =>
    rw [joinRoom_some h]
    obtain ⟨h1, h3, h2, hn1, hn2, hn3, hn4⟩ := hinv
    have hMnodup : ((s.rooms roomName).getD []).Nodup := by
      cases hM : s.rooms roomName with
      | none => simp
      | some M0 => simpa using hn1 roomName M0 hM
    refine ⟨?_, ?_, ?_, ?_, hn2, ?_, hn4⟩
    · intro r members hr
      have hr' : mapSet s.rooms roomName (setAdd ((s.rooms roomName).getD []) ws) r
          = some members := hr
      by_cases hrr : r = roomName
      · rw [hrr, mapSet_same] at hr'
        rw [← Option.some.inj hr']
        exact setAdd_ne_nil _ _
      · rw [mapSet_ne s.rooms _ hrr] at hr'
        exact h1 r members hr'
    · intro r members c hr hc
      have hr' : mapSet s.rooms roomName (setAdd ((s.rooms roomName).getD []) ws) r
          = some members := hr
      by_cases hrr : r = roomName
      · rw [hrr, mapSet_same] at hr'
        rw [← Option.some.inj hr'] at hc
        rcases mem_setAdd.1 hc with hcM | hcw
        · cases hM : s.rooms roomName with
          | none => rw [hM] at hcM; simp at hcM
          | some M0 =>
            rw [hM] at hcM
            simp only [Option.getD_some] at hcM
            obtain ⟨i, hi, hri⟩ := h3 roomName M0 c hM hcM
            by_cases hcw : c = ws
            · refine ⟨{ info with rooms := setAdd info.rooms roomName }, ?_, ?_⟩
              · show mapSet s.clients ws _ c = some _
                rw [hcw]
                exact mapSet_same _ _ _
              · rw [hrr]
                exact mem_setAdd.2 (Or.inr rfl)
            · refine ⟨i, (mapSet_ne s.clients _ hcw).trans hi, ?_⟩
              rw [hrr]
              exact hri
        · refine ⟨{ info with rooms := setAdd info.rooms roomName }, ?_, ?_⟩
          · show mapSet s.clients ws _ c = some _
            rw [hcw]
            exact mapSet_same _ _ _
          · rw [hrr]
            exact mem_setAdd.2 (Or.inr rfl)
      · rw [mapSet_ne s.rooms _ hrr] at hr'
        obtain ⟨i, hi, hri⟩ := h3 r members c hr' hc
        by_cases hcw : c = ws
        · have hii : info = i := by
            rw [hcw, h] at hi
            exact Option.some.inj hi
          refine ⟨{ info with rooms := setAdd info.rooms roomName }, ?_, ?_⟩
          · show mapSet s.clients ws _ c = some _
            rw [hcw]
            exact mapSet_same _ _ _
          · exact mem_setAdd.2 (Or.inl (hii ▸ hri))
        · exact ⟨i, (mapSet_ne s.clients _ hcw).trans hi, hri⟩
    · intro u conns c huc hc
      obtain ⟨i, hi, hui, hu0⟩ := h2 u conns c huc hc
      by_cases hcw : c = ws
      · have hii : info = i := by
          rw [hcw, h] at hi
          exact Option.some.inj hi
        refine ⟨{ info with rooms := setAdd info.rooms roomName }, ?_, ?_, hu0⟩
        · show mapSet s.clients ws _ c = some _
          rw [hcw]
          exact mapSet_same _ _ _
        · show info.userId = some u
          rw [hii]
          exact hui
      · exact ⟨i, (mapSet_ne s.clients _ hcw).trans hi, hui, hu0⟩
    · intro r members hr
      have hr' : mapSet s.rooms roomName (setAdd ((s.rooms roomName).getD []) ws) r
          = some members := hr
      by_cases hrr : r = roomName
      · rw [hrr, mapSet_same] at hr'
        rw [← Option.some.inj hr']
        exact nodup_setAdd ws hMnodup
      · rw [mapSet_ne s.rooms _ hrr] at hr'
        exact hn1 r members hr'
    · intro c i hi
      have hi' : mapSet s.clients ws { info with rooms := setAdd info.rooms roomName } c
          = some i := hi
      by_cases hcw : c = ws
      · rw [hcw, mapSet_same] at hi'
        rw [← Option.some.inj hi']
        exact nodup_setAdd roomName (hn3 ws info h)
      · rw [mapSet_ne s.clients _ hcw] at hi'
        exact hn3 c i hi'

theorem FullInv_handleMessage {s : SMState} {isOpen : Conn → Bool} {ws : Conn}
    {msg : InMsg} {now : Nat} (hinv : FullInv s) :
    FullInv (handleMessage s isOpen ws msg now).1 := by
  cases h : s.clients ws with
  | none => unfold handleMessage; rw [h]; exact hinv
  | some info =>
    rw [handleMessage_some h]
    have hs1 : FullInv { s with clients := mapSet s.clients ws { info with lastActivity := now } } :=
      FullInv_updateClient h rfl rfl hinv
    cases msg with
    | joinRoom room => exact FullInv_joinRoom hs1
    | leaveRoom room => exact FullInv_leaveRoom hs1
    | trackProduct pid => exact FullInv_trackProduct hs1
    | untrackProduct pid => exact FullInv_untrackProduct hs1
    | userTyping room => exact hs1
    | heartbeat => exact hs1
    | unknown => exact hs1

theorem removeRoomStep_clients {isOpen : Conn → Bool} {ws : Conn}
    {uid : Option Nat} {now : Nat} (acc : SMState × Sends) (room : String) :
    (removeRoomStep isOpen ws uid now acc room).1.clients = acc.1.clients ∧
    (removeRoomStep isOpen ws uid now acc room).1.userSockets = acc.1.userSockets ∧
    (removeRoomStep isOpen ws uid now acc room).1.wssClients = acc.1.wssClients := by
  unfold removeRoomStep
  split
  · exact ⟨rfl, rfl, rfl⟩
  · rename_i x members heq
    by_cases hlen : (setDel members ws).length = 0
    · simp [hlen]
    · simp [hlen]

theorem foldl_removeRoomStep_clients {isOpen : Conn → Bool} {ws : Conn}
    {uid : Option Nat} {now : Nat} (l : List String) (acc : SMState × Sends) :
    (l.foldl (removeRoomStep isOpen ws uid now) acc).1.clients = acc.1.clients ∧
    (l.foldl (removeRoomStep isOpen ws uid now) acc).1.userSockets = acc.1.userSockets ∧
    (l.foldl (removeRoomStep isOpen ws uid now) acc).1.wssClients = acc.1.wssClients := by
  induction l generalizing acc with
  | nil => exact ⟨rfl, rfl, rfl⟩
  | cons a t ih =>
    simp only [List.foldl_cons]
    obtain ⟨ic, iu, iw⟩ := ih (removeRoomStep isOpen ws uid now acc a)
    obtain ⟨sc, su, sw⟩ := removeRoomStep_clients acc a
    exact ⟨ic.trans sc, iu.trans su, iw.trans sw⟩

theorem removeRoomStep_rooms_ne {isOpen : Conn → Bool} {ws : Conn}
    {uid : Option Nat} {now : Nat} (acc : SMState × Sends) {room r : String}
    (hra : r ≠ room) :
    (removeRoomStep isOpen ws uid now acc room).1.rooms r = acc.1.rooms r := by
  unfold removeRoomStep
  cases h : acc.1.rooms room with
  | none => rfl
  | some members =>
    by_cases hlen : (setDel members ws).length = 0
    · simp only [hlen, if_true]
      exact mapDel_ne acc.1.rooms hra
    · simp only [hlen, if_false]
      exact mapSet_ne acc.1.rooms _ hra

theorem removeRoomStep_rooms_self {isOpen : Conn → Bool} {ws : Conn}
    {uid : Option Nat} {now : Nat} (acc : SMState × Sends) (room : String)
    {m : List Conn}
    (hm : (removeRoomStep isOpen ws uid now acc room).1.rooms room = some m) :
    ws ∉ m ∨ acc.1.rooms room = none := by
  revert hm
  unfold removeRoomStep
  cases h : acc.1.rooms room with
  | none =>
    intro hm
    exact Or.inr rfl
  | some members =>
    by_cases hlen : (setDel members ws).length = 0
    · simp only [hlen, if_true]
      intro hm
      have : mapDel acc.1.rooms room room = some m := hm
      rw [mapDel_same] at this
      exact absurd this (by simp)
    · simp only [hlen, if_false]
      intro hm
      have : mapSet acc.1.rooms room (setDel members ws) room = some m := hm
      rw [mapSet_same] at this
      rw [← Option.some.inj this]
      exact Or.inl (not_mem_setDel members ws)

theorem FullInv_removeRoomStep {isOpen : Conn → Bool} {ws : Conn}
    {uid : Option Nat} {now : Nat} {acc : SMState × Sends} (room : String)
    (hinv : FullInv acc.1) : FullInv (removeRoomStep isOpen ws uid now acc room).1 := by
  obtain ⟨h1, h3, h2, hn1, hn2, hn3, hn4⟩ := hinv
  unfold removeRoomStep
  cases h : acc.1.rooms room with
  | none => exact ⟨h1, h3, h2, hn1, hn2, hn3, hn4⟩
  | some members =>
    by_cases hlen : (setDel members ws).length = 0
    · simp only [hlen, if_true]
      refine ⟨?_, ?_, h2, ?_, hn2, hn3, hn4⟩
      · intro r members' hr
        have hr' : mapDel acc.1.rooms room r = some members' := hr
        by_cases hrr : r = room
        · rw [hrr, mapDel_same] at hr'
          exact absurd hr' (by simp)
        · rw [mapDel_ne acc.1.rooms hrr] at hr'
          exact h1 r members' hr'
      · intro r members' c hr hc
        have hr' : mapDel acc.1.rooms room r = some members' := hr
        by_cases hrr : r = room
        · rw [hrr, mapDel_same] at hr'
          exact absurd hr' (by simp)
        · rw [mapDel_ne acc.1.rooms hrr] at hr'
          exact h3 r members' c hr' hc
      · intro r members' hr
        have hr' : mapDel acc.1.rooms room r = some members' := hr
        by_cases hrr : r = room
        · rw [hrr, mapDel_same] at hr'
          exact absurd hr' (by simp)
        · rw [mapDel_ne acc.1.rooms hrr] at hr'
          exact hn1 r members' hr'
    · simp only [hlen, if_false]
      refine ⟨?_, ?_, h2, ?_, hn2, hn3, hn4⟩
      · intro r members' hr
        have hr' : mapSet acc.1.rooms room (setDel members ws) r = some members' := hr
        by_cases hrr : r = room
        · rw [hrr, mapSet_same] at hr'
          rw [← Option.some.inj hr']
          intro hnil
          exact hlen (by rw [hnil]; rfl)
        · rw [mapSet_ne acc.1.rooms _ hrr] at hr'
          exact h1 r members' hr'
      · intro r members' c hr hc
        have hr' : mapSet acc.1.rooms room (setDel members ws) r = some members' := hr
        by_cases hrr : r = room
        · rw [hrr, mapSet_same] at hr'
          rw [← Option.some.inj hr'] at hc
          rw [hrr]
          exact h3 room members c h (mem_setDel.1 hc).1
        · rw [mapSet_ne acc.1.rooms _ hrr] at hr'
          exact h3 r members' c hr' hc
      · intro r members' hr
        have hr' : mapSet acc.1.rooms room (setDel members ws) r = some members' := hr
        by_cases hrr : r = room
        · rw [hrr, mapSet_same] at hr'
          rw [← Option.some.inj hr']
          exact nodup_setDel ws (hn1 room members h)
        · rw [mapSet_ne acc.1.rooms _ hrr] at hr'
          exact hn1 r members' hr'

theorem FullInv_foldl_removeRoomStep {isOpen : Conn → Bool} {ws : Conn}
    {uid : Option Nat} {now : Nat} (l : List String) (acc : SMState × Sends)
    (hinv : FullInv acc.1) :
    FullInv ((l.foldl (removeRoomStep isOpen ws uid now) acc).1) := by
  induction l generalizing acc with
  | nil => exact hinv
  | cons a t ih =>
    simp only [List.foldl_cons]
    exact ih (removeRoomStep isOpen ws uid now acc a) (FullInv_removeRoomStep a hinv)

theorem foldl_removeRoomStep_purge {isOpen : Conn → Bool} {ws : Conn}
    {uid : Option Nat} {now : Nat} (l : List String) (acc : SMState × Sends)
    (H : ∀ r m, acc.1.rooms r = some m → ws ∈ m → r ∈ l) :
    ∀ r m, ((l.foldl (removeRoomStep isOpen ws uid now) acc).1).rooms r = some m →
      ws ∉ m := by
  induction l generalizing acc with
  | nil =>
    intro r m hr hin
    exact absurd (H r m hr hin) (List.not_mem_nil r)
  | cons a t ih =>
    simp only [List.foldl_cons]
    apply ih
    intro r m hr hin
    by_cases hra : r = a
    · exfalso
      rw [hra] at hr
      rcases removeRoomStep_rooms_self acc a hr with hnw | hnone
      · exact hnw hin
      · have hstep : (removeRoomStep isOpen ws uid now acc a).1.rooms a = none := by
          unfold removeRoomStep
          rw [hnone]
          exact hnone
        rw [hstep] at hr
        exact absurd hr (by simp)
    · rw [removeRoomStep_rooms_ne acc hra] at hr
      rcases List.mem_cons.1 (H r m hr hin) with heq | ht
      · exact absurd heq hra
      · exact ht

theorem removeUserSocket_fields (s1 : SMState) (ws : Conn) (uid : Option Nat) :
    (removeUserSocket s1 ws uid).clients = s1.clients ∧
    (removeUserSocket s1 ws uid).rooms = s1.rooms ∧
    (removeUserSocket s1 ws uid).wssClients = s1.wssClients := by
  unfold removeUserSocket
  repeat' split
  all_goals exact ⟨rfl, rfl, rfl⟩

/-- `removeUserSocket` either leaves the state unchanged, or rewrites exactly
one (truthy) user's socket-set entry, deleting it when it emptied. -/
theorem removeUserSocket_cases (s1 : SMState) (ws : Conn) (uid : Option Nat) :
    (removeUserSocket s1 ws uid = s1 ∧
      (truthyId uid = false ∨ ∀ u, uid = some u → s1.userSockets u = none)) ∨
    (∃ u conns0, uid = some u ∧ u ≠ 0 ∧ s1.userSockets u = some conns0 ∧
      ((setDel conns0 ws).length = 0 ∧
        removeUserSocket s1 ws uid = { s1 with userSockets := mapDel s1.userSockets u } ∨
       (setDel conns0 ws).length ≠ 0 ∧
        removeUserSocket s1 ws uid = { s1 with userSockets := mapSet s1.userSockets u (setDel conns0 ws) })) := by
  unfold removeUserSocket
  by_cases ht : truthyId uid = true
  · cases uid with
    | none => exact absurd ht (by simp [truthyId])
    | some u0 =>
      rw [if_pos ht]
      dsimp only
      cases hus : s1.userSockets u0 with
      | none =>
        refine Or.inl ⟨rfl, Or.inr ?_⟩
        intro u hu
        rw [← Option.some.inj hu]
        exact hus
      | some conns0 =>
        refine Or.inr ⟨u0, conns0, rfl, ?_, hus, ?_⟩
        · simpa [truthyId] using ht
        · dsimp only
          by_cases hlen : (setDel conns0 ws).length = 0
          · rw [if_pos hlen]
            exact Or.inl ⟨hlen, rfl⟩
          · rw [if_neg hlen]
            exact Or.inr ⟨hlen, rfl⟩
  · rw [if_neg ht]
    exact Or.inl ⟨rfl, Or.inl (by simpa using ht)⟩

theorem FullInv_removeUserSocket {s1 : SMState} {ws : Conn} {uid : Option Nat}
    (hinv : FullInv s1) : FullInv (removeUserSocket s1 ws uid) := by
  obtain ⟨h1, h3, h2, hn1, hn2, hn3, hn4⟩ := hinv
  rcases removeUserSocket_cases s1 ws uid with ⟨h, -⟩ | ⟨u0, conns0, huid0, hu00, hus, ⟨hlen, h⟩ | ⟨hlen, h⟩⟩
  · rw [h]
    exact ⟨h1, h3, h2, hn1, hn2, hn3, hn4⟩
  · rw [h]
    refine ⟨h1, h3, ?_, hn1, ?_, hn3, hn4⟩
    · intro u conns c hu hc
      have hu' : mapDel s1.userSockets u0 u = some conns := hu
      by_cases huu : u = u0
      · rw [huu, mapDel_same] at hu'
        exact absurd hu' (by simp)
      · rw [mapDel_ne s1.userSockets huu] at hu'
        exact h2 u conns c hu' hc
    · intro u conns hu
      have hu' : mapDel s1.userSockets u0 u = some conns := hu
      by_cases huu : u = u0
      · rw [huu, mapDel_same] at hu'
        exact absurd hu' (by simp)
      · rw [mapDel_ne s1.userSockets huu] at hu'
        exact hn2 u conns hu'
  · rw [h]
    refine ⟨h1, h3, ?_, hn1, ?_, hn3, hn4⟩
    · intro u conns c hu hc
      have hu' : mapSet s1.userSockets u0 (setDel conns0 ws) u = some conns := hu
      by_cases huu : u = u0
      · rw [huu, mapSet_same] at hu'
        rw [← Option.some.inj hu'] at hc
        obtain ⟨i, hi, hui, h0⟩ := h2 u0 conns0 c hus (mem_setDel.1 hc).1
        refine ⟨i, hi, ?_, ?_⟩
        · rw [huu]
          exact hui
        · rw [huu]
          exact h0
      · rw [mapSet_ne s1.userSockets _ huu] at hu'
        exact h2 u conns c hu' hc
    · intro u conns hu
      have hu' : mapSet s1.userSockets u0 (setDel conns0 ws) u = some conns := hu
      by_cases huu : u = u0
      · rw [huu, mapSet_same] at hu'
        rw [← Option.some.inj hu']
        exact nodup_setDel ws (hn2 u0 conns0 hus)
      · rw [mapSet_ne s1.userSockets _ huu] at hu'
        exact hn2 u conns hu'

theorem removeUserSocket_purge {s1 : SMState} {ws : Conn} {uid : Option Nat}
    {info : ClientInfo} (h2 : userIdxConsistent s1)
    (hclient : s1.clients ws = some info) (huid : info.userId = uid) :
    ∀ u conns, (removeUserSocket s1 ws uid).userSockets u = some conns →
      ws ∉ conns := by
  have hmem : ∀ u conns, s1.userSockets u = some conns → ws ∈ conns →
      uid = some u ∧ u ≠ 0 := by
    intro u conns hu hin
    obtain ⟨i, hi, hui, h0⟩ := h2 u conns ws hu hin
    have hii : info = i := by
      rw [hclient] at hi
      exact Option.some.inj hi
    refine ⟨?_, h0⟩
    rw [← huid, hii]
    exact hui
  intro u conns hu hin
  rcases removeUserSocket_cases s1 ws uid with ⟨h, hwhy⟩ | ⟨u0, conns0, huid0, hu00, hus, ⟨hlen, h⟩ | ⟨hlen, h⟩⟩
  · -- the identity case: the cleanup was skipped because the id was falsy or
    -- the user's entry was absent; both contradict `ws ∈ conns` via `hmem`
    rw [h] at hu
    obtain ⟨hq, h0⟩ := hmem u conns hu hin
    rcases hwhy with hfal | habs
    · rw [hq] at hfal
      simp [truthyId, h0] at hfal
    · rw [habs u hq] at hu
      exact absurd hu (by simp)
  · rw [h] at hu
    have hu' : mapDel s1.userSockets u0 u = some conns := hu
    by_cases huu : u = u0
    · rw [huu, mapDel_same] at hu'
      exact absurd hu' (by simp)
    · rw [mapDel_ne s1.userSockets huu] at hu'
      obtain ⟨hq, -⟩ := hmem u conns hu' hin
      rw [huid0] at hq
      exact huu (Option.some.inj hq).symm
  · rw [h] at hu
    have hu' : mapSet s1.userSockets u0 (setDel conns0 ws) u = some conns := hu
    by_cases huu : u = u0
    · rw [huu, mapSet_same] at hu'
      rw [← Option.some.inj hu'] at hin
      exact not_mem_setDel conns0 ws hin
    · rw [mapSet_ne s1.userSockets _ huu] at hu'
      obtain ⟨hq, -⟩ := hmem u conns hu' hin
      rw [huid0] at hq
      exact huu (Option.some.inj hq).symm

theorem removeClient_some {s : SMState} {isOpen : Conn → Bool} {ws : Conn}
    {now : Nat} {info : ClientInfo} (h : s.clients ws = some info) :
    removeClient s isOpen ws now =
      ({ removeUserSocket (info.rooms.foldl (removeRoomStep isOpen ws info.userId now) (s, [])).1 ws info.userId with
          clients := mapDel (removeUserSocket (info.rooms.foldl (removeRoomStep isOpen ws info.userId now) (s, [])).1 ws info.userId).clients ws },
       (info.rooms.foldl (removeRoomStep isOpen ws info.userId now) (s, [])).2) := by
  unfold removeClient
  rw [h]

/-- Deleting a connection that no index references any more preserves the
invariant. -/
theorem FullInv_evict {s2 : SMState} {ws : Conn} (hinv : FullInv s2)
    (hrooms : ∀ r m, s2.rooms r = some m → ws ∉ m)
    (husers : ∀ u conns, s2.userSockets u = some conns → ws ∉ conns) :
    FullInv { s2 with clients := mapDel s2.clients ws } := by
  obtain ⟨h1, h3, h2, hn1, hn2, hn3, hn4⟩ := hinv
  refine ⟨h1, ?_, ?_, hn1, hn2, ?_, hn4⟩
  · intro r m c hr hc
    obtain ⟨i, hi, hri⟩ := h3 r m c hr hc
    have hcw : c ≠ ws := fun he => hrooms r m hr (he ▸ hc)
    exact ⟨i, (mapDel_ne s2.clients hcw).trans hi, hri⟩
  · intro u conns c hu hc
    obtain ⟨i, hi, hui, h0⟩ := h2 u conns c hu hc
    have hcw : c ≠ ws := fun he => husers u conns hu (he ▸ hc)
    exact ⟨i, (mapDel_ne s2.clients hcw).trans hi, hui, h0⟩
  · intro c i hi
    have hi' : mapDel s2.clients ws c = some i := hi
    by_cases hcw : c = ws
    · rw [hcw, mapDel_same] at hi'
      exact absurd hi' (by simp)
    · rw [mapDel_ne s2.clients hcw] at hi'
      exact hn3 c i hi'

theorem FullInv_removeClient {s : SMState} {isOpen : Conn → Bool} {ws : Conn}
    {now : Nat} (hinv : FullInv s) : FullInv (removeClient s isOpen ws now).1 := by
  cases h : s.clients ws with
  | none => rw [removeClient_none h]; exact hinv
  | some info =>
    rw [removeClient_some h]
    have hF : FullInv ((info.rooms.foldl (removeRoomStep isOpen ws info.userId now) (s, [])).1) :=
      FullInv_foldl_removeRoomStep info.rooms (s, []) hinv
    obtain ⟨hc1, hu1, hw1⟩ :=
      @foldl_removeRoomStep_clients isOpen ws info.userId now info.rooms (s, [])
    have hH : ∀ r m, (s, ([] : Sends)).1.rooms r = some m → ws ∈ m → r ∈ info.rooms := by
      intro r m hr hin
      obtain ⟨i, hi, hri⟩ := hinv.2.1 r m ws hr hin
      have hii : info = i := by
        rw [h] at hi
        exact Option.some.inj hi
      rw [hii]
      exact hri
    have hpurge1 : ∀ r m,
        ((info.rooms.foldl (removeRoomStep isOpen ws info.userId now) (s, [])).1).rooms r = some m → ws ∉ m :=
      @foldl_removeRoomStep_purge isOpen ws info.userId now info.rooms (s, []) hH
    have hclient1 :
        ((info.rooms.foldl (removeRoomStep isOpen ws info.userId now) (s, [])).1).clients ws = some info := by
      rw [hc1]
      exact h
    obtain ⟨hc2, hr2, hw2⟩ :=
      removeUserSocket_fields ((info.rooms.foldl (removeRoomStep isOpen ws info.userId now) (s, [])).1) ws info.userId
    have hrooms2 : ∀ r m,
        (removeUserSocket ((info.rooms.foldl (removeRoomStep isOpen ws info.userId now) (s, [])).1) ws info.userId).rooms r = some m →
        ws ∉ m := by
      intro r m hr
      rw [hr2] at hr
      exact hpurge1 r m hr
    have husers2 := removeUserSocket_purge hF.2.2.1 hclient1 rfl
    exact FullInv_evict (FullInv_removeUserSocket hF) hrooms2 husers2

/-!
## Characterizations of the send primitives
-/

theorem removeClient_clients_ws {s : SMState} {isOpen : Conn → Bool} {ws : Conn}
    {now : Nat} : ((removeClient s isOpen ws now).1).clients ws = none := by
  cases h : s.clients ws with
  | none =>
    rw [removeClient_none h]
    exact h
  | some info =>
    rw [removeClient_some h]
    exact mapDel_same _ _

theorem broadcastToRoom_some {s : SMState} {isOpen : Conn → Bool} {roomName : String}
    {m : Msg} {excludeWs : Option Conn} {members : List Conn}
    (h : s.rooms roomName = some members) :
    broadcastToRoom s isOpen roomName m excludeWs =
      (members.filter (fun c => isOpen c && some c ≠ excludeWs)).map (fun c => (c, m)) := by
  unfold broadcastToRoom
  rw [h]

theorem broadcastToRoom_none {s : SMState} {isOpen : Conn → Bool} {roomName : String}
    {m : Msg} {excludeWs : Option Conn} (h : s.rooms roomName = none) :
    broadcastToRoom s isOpen roomName m excludeWs = [] := by
  unfold broadcastToRoom
  rw [h]

theorem mem_filter_map_pair {l : List Conn} {p : Conn → Bool} {m : Msg}
    {c : Conn} {m' : Msg} :
    (c, m') ∈ (l.filter p).map (fun c => (c, m)) ↔ (m' = m ∧ c ∈ l ∧ p c = true) := by
  simp only [List.mem_map, List.mem_filter, Prod.mk.injEq]
  constructor
  · rintro ⟨c', ⟨hm, hp⟩, hc, hm'⟩
    rw [← hc]
    exact ⟨hm'.symm, hm, hp⟩
  · rintro ⟨hm', hc, hp⟩
    exact ⟨c, ⟨hc, hp⟩, rfl, hm'.symm⟩

theorem nodup_filter_map_pair {l : List Conn} {p : Conn → Bool} {m : Msg}
    (h : l.Nodup) : ((l.filter p).map (fun c => (c, m))).Nodup := by
  refine List.Nodup.map ?_ (List.Nodup.filter p h)
  intro a b hab
  exact congrArg Prod.fst hab

theorem foldl_sendToClient (isOpen : Conn → Bool) (m : Msg) :
    ∀ (l : List Conn) (init : Sends),
      l.foldl (fun acc ws => acc ++ sendToClient isOpen ws m) init =
        init ++ (l.filter (fun c => isOpen c)).map (fun c => (c, m)) := by
  intro l
  induction l with
  | nil => intro init; simp
  | cons a t ih =>
    intro init
    simp only [List.foldl_cons, List.filter_cons]
    by_cases ha : isOpen a = true
    · rw [ih (init ++ sendToClient isOpen a m)]
      simp [sendToClient, ha]
    · rw [ih (init ++ sendToClient isOpen a m)]
      simp only [ha, Bool.false_eq_true, if_false]
      simp [sendToClient, ha]

theorem sendNotification_some {s : SMState} {isOpen : Conn → Bool} {userId : Nat}
    {payload noteId now : Nat} {conns : List Conn}
    (h : s.userSockets userId = some conns) :
    sendNotification s isOpen userId payload noteId now =
      (conns.filter (fun c => isOpen c)).map
        (fun c => (c, Msg.notifyUser payload noteId now)) := by
  unfold sendNotification
  rw [h]
  dsimp only
  rw [foldl_sendToClient isOpen (Msg.notifyUser payload noteId now) conns []]
  simp

theorem sendNotification_none {s : SMState} {isOpen : Conn → Bool} {userId : Nat}
    {payload noteId now : Nat} (h : s.userSockets userId = none) :
    sendNotification s isOpen userId payload noteId now = [] := by
  unfold sendNotification
  rw [h]

/-!
## Join-then-leave scenario
-/

theorem leaveRoom_deletes_singleton {s : SMState} {isOpen : Conn → Bool} {ws : Conn}
    {r : String} {now : Nat} {info : ClientInfo}
    (hc : s.clients ws = some info) (hr : s.rooms r = some [ws]) :
    ((leaveRoom s isOpen ws r now).1).rooms r = none := by
  rw [leaveRoom_some hc hr]
  have hdel : setDel [ws] ws = [] := by simp [setDel]
  show (if (setDel [ws] ws).length = 0 then mapDel s.rooms r
        else mapSet s.rooms r (setDel [ws] ws)) r = none
  rw [hdel]
  simp [mapDel_same]

theorem joinRoom_makes_singleton {s : SMState} {isOpen : Conn → Bool} {ws : Conn}
    {r : String} {now : Nat} {info : ClientInfo}
    (hc : s.clients ws = some info) (hr : s.rooms r = none ∨ s.rooms r = some [ws]) :
    ((joinRoom s isOpen ws r now).1).rooms r = some [ws] ∧
    ((joinRoom s isOpen ws r now).1).clients ws =
      some { info with rooms := setAdd info.rooms r } := by
  rw [@joinRoom_some s isOpen ws r now info hc]
  have hM : setAdd ((s.rooms r).getD []) ws = [ws] := by
    rcases hr with h0 | h0 <;> rw [h0] <;> simp [setAdd]
  constructor
  · show mapSet s.rooms r (setAdd ((s.rooms r).getD []) ws) r = some [ws]
    rw [mapSet_same, hM]
  · exact mapSet_same _ _ _

theorem join_then_leave_deletes {s : SMState} {isOpen : Conn → Bool} {ws : Conn}
    {r : String} {now now' : Nat} {info : ClientInfo}
    (hc : s.clients ws = some info) (hr : s.rooms r = none ∨ s.rooms r = some [ws]) :
    ((leaveRoom (joinRoom s isOpen ws r now).1 isOpen ws r now').1).rooms r = none := by
  obtain ⟨h1, h2⟩ := joinRoom_makes_singleton hc hr
  exact leaveRoom_deletes_singleton h2 h1

theorem FullInv_handleRawMessage {s : SMState} {isOpen : Conn → Bool} {ws : Conn}
    {parsed : Option InMsg} {now : Nat} (hinv : FullInv s) :
    FullInv (handleRawMessage s isOpen ws parsed now).1 := by
  cases parsed with
  | none => exact hinv
  | some m => exact FullInv_handleMessage hinv

/-!
## Claim theorems
-/

/-- **C1.** Every registry operation — connection accept, join-room,
leave-room, track/untrack, inbound message handling (parsed or malformed),
and close/error cleanup — preserves the full registry invariant `FullInv`,
which holds of the initial state and implies the claimed cross-index
invariant `RegInvariant`: every room present in the room index has at least
one member connection, and every connection stored in a user's set of the
user-connection index is present in the primary connection map. In
particular, join-room(A, r) followed by leave-room(A, r), where A was r's
only member, leaves r absent from the room index. -/
theorem C1_registry_invariant :
    FullInv SMState.init ∧
    (∀ s, FullInv s → RegInvariant s) ∧
    (∀ s isOpen ws uid cid now, s.clients ws = none → FullInv s →
       FullInv (handleConnection s isOpen ws uid cid now).1) ∧
    (∀ s isOpen ws r now, FullInv s → FullInv (joinRoom s isOpen ws r now).1) ∧
    (∀ s isOpen ws r now, FullInv s → FullInv (leaveRoom s isOpen ws r now).1) ∧
    (∀ s isOpen ws pid now, FullInv s → FullInv (trackProduct s isOpen ws pid now).1) ∧
    (∀ s isOpen ws pid now, FullInv s → FullInv (untrackProduct s isOpen ws pid now).1) ∧
    (∀ s isOpen ws msg now, FullInv s → FullInv (handleMessage s isOpen ws msg now).1) ∧
    (∀ s isOpen ws parsed now, FullInv s → FullInv (handleRawMessage s isOpen ws parsed now).1) ∧
    (∀ s isOpen ws now, FullInv s → FullInv (removeClient s isOpen ws now).1) ∧
    (∀ s isOpen ws r now now' info, s.clients ws = some info →
       (s.rooms r = none ∨ s.rooms r = some [ws]) →
       ((leaveRoom (joinRoom s isOpen ws r now).1 isOpen ws r now').1).rooms r = none) := by
  refine ⟨FullInv_init, ?_, ?_, ?_, ?_, ?_, ?_, ?_, ?_, ?_, ?_⟩
  · intro s h
    exact RegInvariant_of_FullInv h
  · intro s isOpen ws uid cid now hfresh h
    exact FullInv_handleConnection hfresh h
  · intro s isOpen ws r now h
    exact FullInv_joinRoom h
  · intro s isOpen ws r now h
    exact FullInv_leaveRoom h
  · intro s isOpen ws pid now h
    exact FullInv_trackProduct h
  · intro s isOpen ws pid now h
    exact FullInv_untrackProduct h
  · intro s isOpen ws msg now h
    exact FullInv_handleMessage h
  · intro s isOpen ws parsed now h
    exact FullInv_handleRawMessage h
  · intro s isOpen ws now h
    exact FullInv_removeClient h
  · intro s isOpen ws r now now' info hc hr
    exact join_then_leave_deletes hc hr

/-- A concrete one-client registry used to witness C1. -/
def stateC1 : SMState :=
  { clients := fun c => if c = 0 then
      some { id := 1, userId := some 7, connectedAt := 0, lastActivity := 0
             rooms := [], trackedProducts := [] } else none
    rooms := fun _ => none
    userSockets := fun u => if u = 7 then some [0] else none
    wssClients := [0] }

theorem C1_registry_invariant_witness :
    FullInv SMState.init ∧
    ((leaveRoom (joinRoom stateC1 (fun _ => true) 0 "jazz" 5).1
        (fun _ => true) 0 "jazz" 6).1).rooms "jazz" = none := by
  refine ⟨C1_registry_invariant.1, ?_⟩
  exact C1_registry_invariant.2.2.2.2.2.2.2.2.2.2 stateC1 (fun _ => true) 0 "jazz" 5 6
    { id := 1, userId := some 7, connectedAt := 0, lastActivity := 0
      rooms := [], trackedProducts := [] }
    rfl (Or.inl rfl)

/-- **C2.** Calling `removeClient` a second time for a connection that has
already been removed is a no-op: the first call leaves no `clients` entry for
the socket, so the second call returns the state unchanged (all three indexes
exactly as they were — nothing is decremented twice) and performs no sends
(and, being a total function, it cannot throw). -/
theorem C2_removeClient_idempotent :
    ∀ (s : SMState) (isOpen isOpen' : Conn → Bool) (ws : Conn) (now now' : Nat),
      removeClient (removeClient s isOpen ws now).1 isOpen' ws now' =
        ((removeClient s isOpen ws now).1, []) :=
  fun _ _ _ _ _ _ => removeClient_none removeClient_clients_ws

/-- Number of occurrences of `a` in a list (delivery multiplicity). -/
def countOcc {α : Type} [DecidableEq α] (a : α) : List α → Nat
  | [] => 0
  | b :: t => (if b = a then 1 else 0) + countOcc a t

theorem countOcc_eq_zero {α : Type} [DecidableEq α] {l : List α} {a : α}
    (ha : a ∉ l) : countOcc a l = 0 := by
  induction l with
  | nil => rfl
  | cons b t ih =>
    unfold countOcc
    have hba : ¬b = a := by
      intro hba
      exact ha (List.mem_cons.2 (Or.inl hba.symm))
    rw [if_neg hba, ih (fun hat => ha (List.mem_cons_of_mem b hat))]

theorem countOcc_eq_one {α : Type} [DecidableEq α] {l : List α} {a : α}
    (hnd : l.Nodup) (ha : a ∈ l) : countOcc a l = 1 := by
  induction l with
  | nil => cases ha
  | cons b t ih =>
    rw [List.nodup_cons] at hnd
    rcases List.mem_cons.1 ha with hab | hat
    · unfold countOcc
      have hnt : a ∉ t := by
        rw [hab]
        exact hnd.1
      rw [if_pos hab.symm, countOcc_eq_zero hnt]
    · unfold countOcc
      have hba : ¬b = a := by
        intro hba
        rw [hba] at hnd
        exact hnd.1 hat
      rw [if_neg hba, ih hnd.2 hat]

/-- **C3.** For every room `r` present in the room index, `broadcastToRoom`
sends the message to exactly those member connections of `r` that are open and
distinct from the excluded connection — each exactly once, the excluded
connection receiving nothing — and for a room name absent from the index the
call is a silent no-op producing no sends (it takes no state output at all,
so it can change no state). -/
theorem C3_broadcastToRoom_spec :
    (∀ s isOpen r m ex members, s.rooms r = some members → members.Nodup →
      (broadcastToRoom s isOpen r m (some ex)).Nodup ∧
      (∀ c, c ∈ members → isOpen c = true → c ≠ ex →
        countOcc (c, m) (broadcastToRoom s isOpen r m (some ex)) = 1) ∧
      (∀ c m', (c, m') ∈ broadcastToRoom s isOpen r m (some ex) ↔
        (m' = m ∧ c ∈ members ∧ isOpen c = true ∧ c ≠ ex)) ∧
      (∀ m', (ex, m') ∉ broadcastToRoom s isOpen r m (some ex))) ∧
    (∀ s isOpen r m ex, s.rooms r = none → broadcastToRoom s isOpen r m ex = []) := by
  constructor
  · intro s isOpen r m ex members h hnd
    rw [broadcastToRoom_some h]
    have hiff : ∀ c : Conn,
        ((isOpen c && some c ≠ some ex) = true) ↔ (isOpen c = true ∧ c ≠ ex) := by
      intro c
      simp
    have hmem : ∀ c m',
        (c, m') ∈ (members.filter (fun c => isOpen c && some c ≠ some ex)).map
          (fun c => (c, m)) ↔ (m' = m ∧ c ∈ members ∧ isOpen c = true ∧ c ≠ ex) := by
      intro c m'
      rw [mem_filter_map_pair]
      constructor
      · rintro ⟨h1, h2, h3⟩
        obtain ⟨h4, h5⟩ := (hiff c).1 h3
        exact ⟨h1, h2, h4, h5⟩
      · rintro ⟨h1, h2, h3, h4⟩
        exact ⟨h1, h2, (hiff c).2 ⟨h3, h4⟩⟩
    refine ⟨nodup_filter_map_pair hnd, ?_, hmem, ?_⟩
    · intro c hc hop hne
      exact countOcc_eq_one (nodup_filter_map_pair hnd)
        ((hmem c m).2 ⟨rfl, hc, hop, hne⟩)
    · intro m' hmm
      exact ((hmem ex m').1 hmm).2.2.2 rfl
  · intro s isOpen r m ex h
    exact broadcastToRoom_none h

/-- A registry with one two-member room, used to witness C3. -/
def stateC3 : SMState :=
  { clients := fun _ => none
    rooms := fun r => if r = "rock" then some [0, 1] else none
    userSockets := fun _ => none
    wssClients := [] }

theorem C3_broadcastToRoom_spec_witness :
    countOcc (1, Msg.pong 1)
      (broadcastToRoom stateC3 (fun _ => true) "rock" (Msg.pong 1) (some 0)) = 1 ∧
    (∀ m', (0, m') ∉ broadcastToRoom stateC3 (fun _ => true) "rock" (Msg.pong 1) (some 0)) := by
  have h := C3_broadcastToRoom_spec.1 stateC3 (fun _ => true) "rock" (Msg.pong 1) 0
    [0, 1] rfl (by decide)
  exact ⟨h.2.1 1 (by decide) rfl (by decide), h.2.2.2⟩

/-- **C4.** For every user with an entry `{c1..ck}` in the user-connection
index, `sendNotification` delivers exactly one `NOTIFICATION` message to each
open `ci` and nothing to any connection outside the entry; for a user with no
entry the call is a silent no-op (the notification is dropped, never
queued — the function produces only this send list and no state). -/
theorem C4_sendNotification_spec :
    (∀ s isOpen u payload noteId now conns,
      s.userSockets u = some conns → conns.Nodup →
      (∀ c, c ∈ conns → isOpen c = true →
        countOcc (c, Msg.notifyUser payload noteId now)
          (sendNotification s isOpen u payload noteId now) = 1) ∧
      (∀ c m', (c, m') ∈ sendNotification s isOpen u payload noteId now ↔
        (m' = Msg.notifyUser payload noteId now ∧ c ∈ conns ∧ isOpen c = true)) ∧
      (∀ c, c ∉ conns → ∀ m', (c, m') ∉ sendNotification s isOpen u payload noteId now)) ∧
    (∀ s isOpen u payload noteId now, s.userSockets u = none →
      sendNotification s isOpen u payload noteId now = []) := by
  constructor
  · intro s isOpen u payload noteId now conns h hnd
    rw [sendNotification_some h]
    have hmem : ∀ c m',
        (c, m') ∈ (conns.filter (fun c => isOpen c)).map
          (fun c => (c, Msg.notifyUser payload noteId now)) ↔
        (m' = Msg.notifyUser payload noteId now ∧ c ∈ conns ∧ isOpen c = true) :=
      fun c m' => mem_filter_map_pair
    refine ⟨?_, hmem, ?_⟩
    · intro c hc hop
      exact countOcc_eq_one (nodup_filter_map_pair hnd)
        ((hmem c _).2 ⟨rfl, hc, hop⟩)
    · intro c hc m' hmm
      exact hc ((hmem c m').1 hmm).2.1
  · intro s isOpen u payload noteId now h
    exact sendNotification_none h

/-- A registry with one user owning two sockets, used to witness C4. -/
def stateC4 : SMState :=
  { clients := fun _ => none
    rooms := fun _ => none
    userSockets := fun u => if u = 7 then some [0, 1] else none
    wssClients := [] }

theorem C4_sendNotification_spec_witness :
    countOcc (0, Msg.notifyUser 3 4 5) (sendNotification stateC4 (fun _ => true) 7 3 4 5) = 1 ∧
    countOcc (1, Msg.notifyUser 3 4 5) (sendNotification stateC4 (fun _ => true) 7 3 4 5) = 1 ∧
    (∀ m', (2, m') ∉ sendNotification stateC4 (fun _ => true) 7 3 4 5) := by
  have h := C4_sendNotification_spec.1 stateC4 (fun _ => true) 7 3 4 5 [0, 1] rfl (by decide)
  exact ⟨h.1 0 (by decide) rfl, h.1 1 (by decide) rfl, h.2.2 2 (by decide)⟩

/-- **C5.** The liveness sweep is a two-tick detector: each sweep terminates
exactly those (still-registered) connections whose liveness flag is false,
and for the rest resets the flag to false and sends a transport ping; only
the pong listener sets the flag back to true. Consequently a connection that
never answers (flag last set true at time `p`, sweeps at `interval,
2*interval, …`) survives the first sweep after `p` and is forcibly terminated
at the second, at absolute time `hbTerminationTime interval p` — strictly
more than one sweep interval and at most two sweep intervals after `p`
(30 seconds per interval in the source). -/
theorem C5_heartbeat_two_tick :
    (∀ c : HbConn, c.terminated = false → c.isAlive = false →
       (sweepConn c).1.terminated = true ∧ (sweepConn c).2 = false) ∧
    (∀ c : HbConn, c.terminated = false → c.isAlive = true →
       (sweepConn c).1 = ⟨false, false⟩ ∧ (sweepConn c).2 = true) ∧
    (∀ c : HbConn, c.terminated = false →
       ((sweepConn c).1.terminated = true ↔ c.isAlive = false)) ∧
    (∀ c : HbConn, c.terminated = false → (sweepConn c).1.isAlive = false) ∧
    (∀ c : HbConn, (pongConn c).isAlive = true) ∧
    (sweepN 1 ⟨true, false⟩).terminated = false ∧
    (sweepN 2 ⟨true, false⟩).terminated = true ∧
    (∀ interval p : Nat, 0 < interval →
       p < (p / interval + 1) * interval ∧
       hbTerminationTime interval p = (p / interval + 1) * interval + interval ∧
       p + interval < hbTerminationTime interval p ∧
       hbTerminationTime interval p ≤ p + 2 * interval) := by
  refine ⟨?_, ?_, ?_, ?_, ?_, ?_, ?_, ?_⟩
  · intro c ht ha
    unfold sweepConn
    rw [ht, ha]
    exact ⟨rfl, rfl⟩
  · intro c ht ha
    unfold sweepConn
    rw [ht, ha]
    exact ⟨rfl, rfl⟩
  · intro c ht
    cases ha : c.isAlive
    · unfold sweepConn
      rw [ht, ha]
      simp
    · unfold sweepConn
      rw [ht, ha]
      simp
  · intro c ht
    cases ha : c.isAlive
    · unfold sweepConn
      rw [ht, ha]
      rfl
    · unfold sweepConn
      rw [ht, ha]
      rfl
  · intro c
    rfl
  · rfl
  · rfl
  · intro interval p hI
    have hdm : interval * (p / interval) + p % interval = p := Nat.div_add_mod p interval
    have hmod : p % interval < interval := Nat.mod_lt p hI
    have e1 : (p / interval + 1) * interval = interval * (p / interval) + interval := by
      ring
    have e2 : hbTerminationTime interval p = interval * (p / interval) + 2 * interval := by
      unfold hbTerminationTime
      ring
    refine ⟨?_, ?_, ?_, ?_⟩
    · rw [e1]
      omega
    · rw [e2, e1]
      omega
    · rw [e2]
      omega
    · rw [e2]
      omega

theorem C5_heartbeat_two_tick_witness :
    (sweepConn ⟨false, false⟩).1.terminated = true ∧
    (sweepConn ⟨true, false⟩).1 = ⟨false, false⟩ ∧
    45 + 30 < hbTerminationTime 30 45 ∧
    hbTerminationTime 30 45 ≤ 45 + 2 * 30 := by
  refine ⟨?_, ?_, ?_, ?_⟩
  · exact (C5_heartbeat_two_tick.1 ⟨false, false⟩ rfl rfl).1
  · exact (C5_heartbeat_two_tick.2.1 ⟨true, false⟩ rfl rfl).1
  · exact (C5_heartbeat_two_tick.2.2.2.2.2.2.2 30 45 (by decide)).2.2.1
  · exact (C5_heartbeat_two_tick.2.2.2.2.2.2.2 30 45 (by decide)).2.2.2

/-- **C9 counterexample.** The claim quantifies over all prices and asserts
the discount is never negative, but for the (nonsensical yet accepted)
negative prices oldPrice = -5 > newPrice = -10 the source computes
`Math.round(((-5 - -10) / -5) * 100) = -100 < 0`. -/
theorem C9_price_discount_counterexample :
    priceDiscount (-10) (-5) = -100 ∧ priceDiscount (-10) (-5) < 0 := by
  constructor
  · unfold priceDiscount jsRound
    rw [if_pos (by norm_num)]
    norm_num
  · unfold priceDiscount jsRound
    rw [if_pos (by norm_num)]
    norm_num

/-- **C9 (amended).** Every message emitted by `broadcastPriceUpdate` carries
`discount = round(((oldPrice − newPrice) / oldPrice) × 100)` when
`oldPrice > newPrice` and `0` otherwise; in particular `oldPrice = 100,
newPrice = 75` gives 25 and `oldPrice = 50, newPrice = 60` gives 0; and the
discount is never negative provided `oldPrice` is positive (as every real
price is — for a negative `oldPrice` it can be negative, see the
counterexample). -/
theorem C9_price_discount :
    (∀ s isOpen pid newPrice oldPrice now c m',
       (c, m') ∈ broadcastPriceUpdate s isOpen pid newPrice oldPrice now →
       m' = Msg.priceUpdate pid newPrice oldPrice (priceDiscount newPrice oldPrice) now) ∧
    (∀ newPrice oldPrice : ℚ, oldPrice > newPrice →
       priceDiscount newPrice oldPrice = jsRound ((oldPrice - newPrice) / oldPrice * 100)) ∧
    (∀ newPrice oldPrice : ℚ, ¬(oldPrice > newPrice) →
       priceDiscount newPrice oldPrice = 0) ∧
    priceDiscount 75 100 = 25 ∧
    priceDiscount 60 50 = 0 ∧
    (∀ newPrice oldPrice : ℚ, 0 < oldPrice → 0 ≤ priceDiscount newPrice oldPrice) := by
  refine ⟨?_, ?_, ?_, ?_, ?_, ?_⟩
  · intro s isOpen pid newPrice oldPrice now c m' hm
    unfold broadcastPriceUpdate broadcast at hm
    obtain ⟨c', -, hp⟩ := List.mem_map.1 hm
    exact (Prod.ext_iff.1 hp).2.symm
  · intro newPrice oldPrice h
    unfold priceDiscount
    rw [if_pos h]
  · intro newPrice oldPrice h
    unfold priceDiscount
    rw [if_neg h]
  · unfold priceDiscount jsRound
    rw [if_pos (by norm_num)]
    norm_num
  · unfold priceDiscount
    rw [if_neg (by norm_num)]
  · intro newPrice oldPrice h0
    unfold priceDiscount
    by_cases h : oldPrice > newPrice
    · rw [if_pos h]
      unfold jsRound
      have hx : (0 : ℚ) ≤ (oldPrice - newPrice) / oldPrice * 100 := by
        apply mul_nonneg
        · exact div_nonneg (sub_nonneg.2 (le_of_lt h)) (le_of_lt h0)
        · norm_num
      have : ((0 : ℤ) : ℚ) ≤ (oldPrice - newPrice) / oldPrice * 100 + 1 / 2 := by
        push_cast
        linarith
      exact Int.le_floor.2 this
    · rw [if_neg h]

theorem C9_price_discount_witness :
    priceDiscount 75 100 = 25 ∧ 0 ≤ priceDiscount 75 100 :=
  ⟨C9_price_discount.2.2.2.1, C9_price_discount.2.2.2.2.2 75 100 (by norm_num)⟩

/-- **C10.** An inbound USER_TYPING frame naming room `r` from a registered
connection `c` broadcasts a USER_TYPING message (carrying `c`'s user id and
the timestamp) to every open member of `r` except `c` — with no hypothesis
that `c` is a member of `r` or that `r` is in `c`'s room set: the handler
never checks the sender's membership. No index is modified. -/
theorem C10_userTyping_no_membership_check :
    ∀ s isOpen ws r now info members, s.clients ws = some info →
      s.rooms r = some members →
      (handleMessage s isOpen ws (.userTyping r) now).2 =
        (members.filter (fun c => isOpen c && some c ≠ some ws)).map
          (fun c => (c, Msg.userTyping info.userId now)) ∧
      (handleMessage s isOpen ws (.userTyping r) now).1.rooms = s.rooms ∧
      (handleMessage s isOpen ws (.userTyping r) now).1.userSockets = s.userSockets := by
  intro s isOpen ws r now info members hc hr
  rw [handleMessage_some hc]
  dsimp only
  refine ⟨?_, rfl, rfl⟩
  exact broadcastToRoom_some hr

/-- A registry where connection 5 is registered but not a member of room
`"rock"`, used to witness C10. -/
def stateC10 : SMState :=
  { clients := fun c => if c = 5 then
      some { id := 2, userId := some 3, connectedAt := 0, lastActivity := 0
             rooms := [], trackedProducts := [] } else none
    rooms := fun r => if r = "rock" then some [0, 1] else none
    userSockets := fun _ => none
    wssClients := [0, 1, 5] }

theorem C10_userTyping_no_membership_check_witness :
    (handleMessage stateC10 (fun _ => true) 5 (.userTyping "rock") 9).2 =
      [(0, Msg.userTyping (some 3) 9), (1, Msg.userTyping (some 3) 9)] := by
  rw [(C10_userTyping_no_membership_check stateC10 (fun _ => true) 5 "rock" 9
    { id := 2, userId := some 3, connectedAt := 0, lastActivity := 0
      rooms := [], trackedProducts := [] } [0, 1] rfl rfl).1]
  decide

/-- A one-client registry with no rooms, used for the C7 counterexample. -/
def stateC7a : SMState :=
  { clients := fun c => if c = 0 then
      some { id := 1, userId := some 7, connectedAt := 0, lastActivity := 0
             rooms := [], trackedProducts := [] } else none
    rooms := fun _ => none
    userSockets := fun u => if u = 7 then some [0] else none
    wssClients := [0] }

/-- **C7 counterexample.** A registered, open connection handling
LEAVE_ROOM("ghost") for a room absent from the index gets no ROOM_LEFT
confirmation at all (the handler returns before replying), refuting "always
sends a ROOM_LEFT confirmation" as quantified over every room name. -/
theorem C7_leaveRoom_counterexample :
    (handleMessage stateC7a (fun _ => true) 0 (.leaveRoom "ghost") 3).2 = [] := by
  decide

/-- A registry with two members in room "r" (user 7 owning socket 0), used to
show the disconnect path does broadcast USER_LEFT. -/
def stateC7b : SMState :=
  { clients := fun c =>
      if c = 0 then
        some { id := 1, userId := some 7, connectedAt := 0, lastActivity := 0
               rooms := ["r"], trackedProducts := [] }
      else if c = 1 then
        some { id := 2, userId := none, connectedAt := 0, lastActivity := 0
               rooms := ["r"], trackedProducts := [] }
      else none
    rooms := fun r => if r = "r" then some [0, 1] else none
    userSockets := fun u => if u = 7 then some [0] else none
    wssClients := [0, 1] }

/-- **C7 (amended).** For a registered connection and a room `r` present in
the index, `leaveRoom` removes the connection from `r`'s member set (deleting
`r` when it empties), removes `r` from the connection's room set, sends a
ROOM_LEFT confirmation (delivered when the socket is open), and never emits a
USER_LEFT message on this path; if `r` is absent from the index the handler
returns with no reply and no state change. USER_LEFT is broadcast only by the
disconnect-triggered cleanup, as the concrete `removeClient` run shows. -/
theorem C7_leaveRoom_spec :
    (∀ s isOpen ws r now info members, s.clients ws = some info →
       s.rooms r = some members →
       ((leaveRoom s isOpen ws r now).1.rooms r =
          if (setDel members ws).length = 0 then none else some (setDel members ws)) ∧
       (∀ r', r' ≠ r → (leaveRoom s isOpen ws r now).1.rooms r' = s.rooms r') ∧
       (leaveRoom s isOpen ws r now).1.clients ws =
         some { info with rooms := setDel info.rooms r } ∧
       (leaveRoom s isOpen ws r now).2 = sendToClient isOpen ws (.roomLeft r now) ∧
       (isOpen ws = true → (leaveRoom s isOpen ws r now).2 = [(ws, Msg.roomLeft r now)]) ∧
       (∀ c uid n ts, (c, Msg.userLeft uid n ts) ∉ (leaveRoom s isOpen ws r now).2)) ∧
    (∀ s isOpen ws r now, s.rooms r = none → leaveRoom s isOpen ws r now = (s, [])) ∧
    (∀ s isOpen ws r now info, s.clients ws = some info →
       handleMessage s isOpen ws (.leaveRoom r) now =
         leaveRoom { s with clients := mapSet s.clients ws { info with lastActivity := now } }
           isOpen ws r now) ∧
    (removeClient stateC7b (fun _ => true) 0 9).2 = [(1, Msg.userLeft (some 7) 1 9)] := by
  refine ⟨?_, ?_, ?_, ?_⟩
  · intro s isOpen ws r now info members hc hr
    rw [leaveRoom_some hc hr]
    refine ⟨?_, ?_, ?_, rfl, ?_, ?_⟩
    · show (if (setDel members ws).length = 0 then mapDel s.rooms r
            else mapSet s.rooms r (setDel members ws)) r =
        if (setDel members ws).length = 0 then none else some (setDel members ws)
      by_cases hlen : (setDel members ws).length = 0
      · rw [if_pos hlen, if_pos hlen, mapDel_same]
      · rw [if_neg hlen, if_neg hlen, mapSet_same]
    · intro r' hr'
      show (if (setDel members ws).length = 0 then mapDel s.rooms r
            else mapSet s.rooms r (setDel members ws)) r' = s.rooms r'
      by_cases hlen : (setDel members ws).length = 0
      · rw [if_pos hlen]
        exact mapDel_ne s.rooms hr'
      · rw [if_neg hlen]
        exact mapSet_ne s.rooms _ hr'
    · exact mapSet_same _ _ _
    · intro ho
      show sendToClient isOpen ws (.roomLeft r now) = [(ws, Msg.roomLeft r now)]
      unfold sendToClient
      rw [if_pos ho]
    · intro c uid n ts hmem
      show False
      unfold sendToClient at hmem
      by_cases ho : isOpen ws = true
      · rw [if_pos ho] at hmem
        have := List.mem_singleton.1 hmem
        have h2 := (Prod.ext_iff.1 this).2
        simp at h2
      · rw [if_neg ho] at hmem
        exact absurd hmem (List.not_mem_nil _)
  · intro s isOpen ws r now h
    exact leaveRoom_noRoom h
  · intro s isOpen ws r now info hc
    rw [handleMessage_some hc]
  · decide

theorem C7_leaveRoom_spec_witness :
    (leaveRoom stateC7b (fun _ => true) 1 "r" 4).1.rooms "r" = some [0] ∧
    (leaveRoom stateC7b (fun _ => true) 1 "r" 4).2 = [(1, Msg.roomLeft "r" 4)] ∧
    (∀ c uid n ts, (c, Msg.userLeft uid n ts) ∉ (leaveRoom stateC7b (fun _ => true) 1 "r" 4).2) := by
  have h := C7_leaveRoom_spec.1 stateC7b (fun _ => true) 1 "r" 4
    { id := 2, userId := none, connectedAt := 0, lastActivity := 0
      rooms := ["r"], trackedProducts := [] } [0, 1] rfl rfl
  refine ⟨?_, h.2.2.2.2.1 rfl, h.2.2.2.2.2⟩
  rw [h.1]
  decide

/-- `joinRoom` for a connection already in the room: the state is fixed (set
semantics), yet the confirmation and the join notice are still produced,
carrying the unchanged member count. -/
theorem joinRoom_already_member {s : SMState} {isOpen : Conn → Bool} {ws : Conn}
    {r : String} {now : Nat} {info : ClientInfo} {members : List Conn}
    (hc : s.clients ws = some info) (hr : s.rooms r = some members)
    (hws : ws ∈ members) (hri : r ∈ info.rooms) :
    (joinRoom s isOpen ws r now).1 = s ∧
    (joinRoom s isOpen ws r now).2 =
      sendToClient isOpen ws (.roomJoined r members.length now) ++
      (members.filter (fun c => isOpen c && some c ≠ some ws)).map
        (fun c => (c, Msg.userJoined info.userId members.length now)) := by
  have hM : (s.rooms r).getD [] = members := by
    rw [hr]
    rfl
  have hcl : mapSet s.clients ws { info with rooms := info.rooms } = s.clients :=
    mapSet_of_eq hc
  constructor
  · rw [@joinRoom_some s isOpen ws r now info hc]
    rw [hM, setAdd_of_mem hws, setAdd_of_mem hri, mapSet_of_eq hr, hcl]
  · unfold joinRoom
    rw [hc]
    dsimp only
    rw [hM, setAdd_of_mem hws, setAdd_of_mem hri]
    have hb : ({ s with rooms := mapSet s.rooms r members
                        clients := mapSet s.clients ws { info with rooms := info.rooms } } : SMState).rooms r
        = some members := mapSet_same _ _ _
    rw [broadcastToRoom_some hb]

/-- **C8.** Handling a further JOIN_ROOM(r) frame from a connection already a
member of `r` leaves the room's member set, its member count, and the
connection's room set unchanged (set semantics — the state changes only by
the unconditional `lastActivity` refresh), yet still sends a ROOM_JOINED
confirmation carrying the unchanged member count to the sender and
re-broadcasts a USER_JOINED notice to every other open member of `r`. -/
theorem C8_joinRoom_idempotent_loud :
    ∀ s isOpen ws r now info members, s.clients ws = some info →
      s.rooms r = some members → ws ∈ members → r ∈ info.rooms →
      (handleMessage s isOpen ws (.joinRoom r) now).1 =
        { s with clients := mapSet s.clients ws { info with lastActivity := now } } ∧
      (handleMessage s isOpen ws (.joinRoom r) now).1.rooms = s.rooms ∧
      (handleMessage s isOpen ws (.joinRoom r) now).1.rooms r = some members ∧
      (handleMessage s isOpen ws (.joinRoom r) now).1.userSockets = s.userSockets ∧
      (handleMessage s isOpen ws (.joinRoom r) now).1.clients ws =
        some { info with lastActivity := now } ∧
      (handleMessage s isOpen ws (.joinRoom r) now).2 =
        sendToClient isOpen ws (.roomJoined r members.length now) ++
        (members.filter (fun c => isOpen c && some c ≠ some ws)).map
          (fun c => (c, Msg.userJoined info.userId members.length now)) := by
  intro s isOpen ws r now info members hc hr hws hri
  rw [handleMessage_some hc]
  dsimp only
  have hc1 : ({ s with clients := mapSet s.clients ws { info with lastActivity := now } } : SMState).clients ws
      = some { info with lastActivity := now } := mapSet_same _ _ _
  have hr1 : ({ s with clients := mapSet s.clients ws { info with lastActivity := now } } : SMState).rooms r
      = some members := hr
  have hri1 : r ∈ ({ info with lastActivity := now } : ClientInfo).rooms := hri
  have hL := @joinRoom_already_member
    { s with clients := mapSet s.clients ws { info with lastActivity := now } }
    isOpen ws r now { info with lastActivity := now } members hc1 hr1 hws hri1
  refine ⟨hL.1, ?_, ?_, ?_, ?_, hL.2⟩
  · rw [hL.1]
  · rw [hL.1]
    exact hr
  · rw [hL.1]
  · rw [hL.1]
    exact hc1

/-- A registry where connection 0 is already a member of room "r", used to
witness C8. -/
def stateC8 : SMState :=
  { clients := fun c =>
      if c = 0 then
        some { id := 1, userId := some 7, connectedAt := 0, lastActivity := 0
               rooms := ["r"], trackedProducts := [] }
      else if c = 1 then
        some { id := 2, userId := none, connectedAt := 0, lastActivity := 0
               rooms := ["r"], trackedProducts := [] }
      else none
    rooms := fun r => if r = "r" then some [0, 1] else none
    userSockets := fun u => if u = 7 then some [0] else none
    wssClients := [0, 1] }

theorem C8_joinRoom_idempotent_loud_witness :
    (handleMessage stateC8 (fun _ => true) 0 (.joinRoom "r") 9).1.rooms "r" = some [0, 1] ∧
    (handleMessage stateC8 (fun _ => true) 0 (.joinRoom "r") 9).2 =
      [(0, Msg.roomJoined "r" 2 9), (1, Msg.userJoined (some 7) 2 9)] := by
  have h := C8_joinRoom_idempotent_loud stateC8 (fun _ => true) 0 "r" 9
    { id := 1, userId := some 7, connectedAt := 0, lastActivity := 0
      rooms := ["r"], trackedProducts := [] }
    [0, 1] rfl rfl (by decide) (by decide)
  refine ⟨h.2.2.1, ?_⟩
  rw [h.2.2.2.2.2]
  decide

/-- A server with two open sockets in `wss.clients`, used for the C6
counterexample. -/
def stateC6 : SMState :=
  { clients := fun _ => none
    rooms := fun r => if r = "r" then some [0, 1] else none
    userSockets := fun _ => none
    wssClients := [0, 1] }

/-- **C6 counterexample.** `broadcast` contains no try/catch: with both
targets open and the transport making the send to connection 0 throw, the
exception escapes the primitive (`Except.error`), so connection 1 — later in
the iteration — receives nothing; likewise for `broadcastToRoom` and
`sendToClient`. This refutes "a failure while sending to any single
connection is caught and absorbed at the point of occurrence". -/
theorem C6_send_error_counterexample :
    broadcastE stateC6 (fun _ => true) (fun c => c == 0) (Msg.pong 1) none =
      Except.error () ∧
    broadcastToRoomE stateC6 (fun _ => true) (fun c => c == 0) "r" (Msg.pong 1) none =
      Except.error () ∧
    sendToClientE (fun _ => true) (fun c => c == 0) 0 (Msg.pong 1) =
      Except.error () := by
  refine ⟨?_, ?_, ?_⟩ <;> rfl

theorem sendLoopB_ok (isOpen sendErr : Conn → Bool) (filter : Option (Conn → Bool))
    (m : Msg) : ∀ (l : List Conn) (acc : Sends),
      (∀ c, c ∈ l → isOpen c = true → sendErr c = false) →
      sendLoopB isOpen sendErr filter m l acc =
        Except.ok (acc ++ (l.filter (fun c => isOpen c &&
          match filter with
          | none => true
          | some f => f c)).map (fun c => (c, m))) := by
  cases filter with
  | none =>
    intro l
    induction l with
    | nil =>
      intro acc h
      simp [sendLoopB]
    | cons a t ih =>
      intro acc h
      have hrest : ∀ c, c ∈ t → isOpen c = true → sendErr c = false :=
        fun c hc => h c (List.mem_cons_of_mem a hc)
      unfold sendLoopB
      dsimp only
      by_cases ho : isOpen a = true
      · have hs : sendErr a = false := h a (List.mem_cons_self a t) ho
        rw [if_pos ho, if_pos rfl, hs]
        rw [if_neg (by simp)]
        rw [ih (acc ++ [(a, m)]) hrest]
        rw [List.filter_cons, if_pos (by rw [ho]; rfl)]
        simp
      · rw [if_neg ho]
        rw [ih acc hrest]
        rw [List.filter_cons, if_neg (by
          intro hand
          rw [Bool.and_eq_true] at hand
          exact ho hand.1)]
  | some f =>
    intro l
    induction l with
    | nil =>
      intro acc h
      simp [sendLoopB]
    | cons a t ih =>
      intro acc h
      have hrest : ∀ c, c ∈ t → isOpen c = true → sendErr c = false :=
        fun c hc => h c (List.mem_cons_of_mem a hc)
      unfold sendLoopB
      dsimp only
      by_cases ho : isOpen a = true
      · by_cases hf : f a = true
        · have hs : sendErr a = false := h a (List.mem_cons_self a t) ho
          rw [if_pos ho, if_pos hf, hs]
          rw [if_neg (by simp)]
          rw [ih (acc ++ [(a, m)]) hrest]
          rw [List.filter_cons, if_pos (by rw [ho, hf]; rfl)]
          simp
        · rw [if_pos ho, if_neg hf]
          rw [ih acc hrest]
          rw [List.filter_cons, if_neg (by
            intro hand
            rw [Bool.and_eq_true] at hand
            exact hf hand.2)]
      · rw [if_neg ho]
        rw [ih acc hrest]
        rw [List.filter_cons, if_neg (by
          intro hand
          rw [Bool.and_eq_true] at hand
          exact ho hand.1)]

theorem sendLoopR_ok (isOpen sendErr : Conn → Bool) (excludeWs : Option Conn)
    (m : Msg) : ∀ (l : List Conn) (acc : Sends),
      (∀ c, c ∈ l → isOpen c = true → sendErr c = false) →
      sendLoopR isOpen sendErr excludeWs m l acc =
        Except.ok (acc ++ (l.filter (fun c => isOpen c && some c ≠ excludeWs)).map
          (fun c => (c, m))) := by
  intro l
  induction l with
  | nil =>
    intro acc h
    simp [sendLoopR]
  | cons a t ih =>
    intro acc h
    have hrest : ∀ c, c ∈ t → isOpen c = true → sendErr c = false :=
      fun c hc => h c (List.mem_cons_of_mem a hc)
    unfold sendLoopR
    by_cases hp : (isOpen a && decide (some a ≠ excludeWs)) = true
    · have ho : isOpen a = true := by
        have hp2 := hp
        rw [Bool.and_eq_true] at hp2
        exact hp2.1
      have hs : sendErr a = false := h a (List.mem_cons_self a t) ho
      rw [if_pos hp, hs]
      rw [if_neg (by simp)]
      rw [ih (acc ++ [(a, m)]) hrest]
      rw [List.filter_cons, if_pos hp]
      simp
    · rw [if_neg hp]
      rw [ih acc hrest]
      rw [List.filter_cons, if_neg hp]

/-- **C6 (amended).** A target that is no longer open is a silent skip for
every send primitive, never an error — even if sending to it would throw.
However, the primitives contain no try/catch: an error raised by the
transport's `send` on an open target escapes to the caller and aborts the
remaining iteration (see the counterexample). What holds is conditional
absorption: whenever no attempted send throws, each fallible primitive
completes without error and delivers exactly what its infallible counterpart
computes. -/
theorem C6_send_error_policy :
    (∀ isOpen sendErr ws m, isOpen ws = false →
       sendToClientE isOpen sendErr ws m = Except.ok []) ∧
    (∀ isOpen sendErr ws m, isOpen ws = true → sendErr ws = false →
       sendToClientE isOpen sendErr ws m = Except.ok [(ws, m)]) ∧
    (∀ isOpen ws m, isOpen ws = false → sendToClient isOpen ws m = []) ∧
    (∀ s isOpen sendErr m filter,
       (∀ c, c ∈ s.wssClients → isOpen c = true → sendErr c = false) →
       broadcastE s isOpen sendErr m filter = Except.ok (broadcast s isOpen m filter)) ∧
    (∀ s isOpen sendErr r m ex,
       (∀ c members, s.rooms r = some members → c ∈ members → isOpen c = true →
          sendErr c = false) →
       broadcastToRoomE s isOpen sendErr r m ex =
         Except.ok (broadcastToRoom s isOpen r m ex)) := by
  refine ⟨?_, ?_, ?_, ?_, ?_⟩
  · intro isOpen sendErr ws m h
    unfold sendToClientE
    rw [if_neg (by rw [h]; simp)]
  · intro isOpen sendErr ws m ho hs
    unfold sendToClientE
    rw [if_pos ho, hs]
    rw [if_neg (by simp)]
  · intro isOpen ws m h
    unfold sendToClient
    rw [if_neg (by rw [h]; simp)]
  · intro s isOpen sendErr m filter h
    unfold broadcastE broadcast
    exact sendLoopB_ok isOpen sendErr filter m s.wssClients [] h
  · intro s isOpen sendErr r m ex h
    unfold broadcastToRoomE broadcastToRoom
    cases hr : s.rooms r with
    | none => rfl
    | some members =>
      dsimp only
      exact sendLoopR_ok isOpen sendErr ex m members []
        (fun c hc => h c members hr hc)

theorem C6_send_error_policy_witness :
    sendToClientE (fun _ => false) (fun _ => true) 0 (Msg.pong 1) = Except.ok [] ∧
    broadcastE stateC6 (fun _ => true) (fun _ => false) (Msg.pong 1) none =
      Except.ok [(0, Msg.pong 1), (1, Msg.pong 1)] := by
  constructor
  · exact C6_send_error_policy.1 (fun _ => false) (fun _ => true) 0 (Msg.pong 1) rfl
  · rw [C6_send_error_policy.2.2.2.1 stateC6 (fun _ => true) (fun _ => false)
      (Msg.pong 1) none (fun c hc ho => rfl)]
    rfl
